import Mathlib

/-!
# Verification of the logiscan core algorithms

Shallow embedding of the two pure core algorithms of the logiscan
repository and proofs of the specified properties about them:

* `matchDetections` and `rematchSingleDetection`
  (from `src/utils/matchingAlgorithm.ts`), and
* `parsePackageList` (from `src/utils/parsePackageList.ts`, in its
  current form with anchor-based segmentation, the case-insensitive
  apartment regex and the no-tracking sentinel handling).

JavaScript strings are modelled by `String` / `List Char`; the regular
expressions of the source are translated into explicit character-list
scanners with the same (leftmost, greedy, backtracking) semantics at
their call sites.  JS `\s` is modelled by `Char.isWhitespace` (ASCII
whitespace).  Nullable fields are `Option`, JS string truthiness is
`strTruthy`/`strFalsy`.  Nondeterministic package metadata (`uuidv4()`,
`Date.now()`) is modelled by a line-number derived id and a fixed
timestamp; no verified property depends on these values.
-/

/-! ## Data model (`src/types/models.ts`) -/

inductive PackageStatus
  | pending
  | found
  | verified
  | not_found
deriving DecidableEq, Repr

inductive DetectionStatus
  | matched
  | duplicate
  | orphan
  | unreadable
  | ambiguous
deriving DecidableEq, Repr

structure BoundingBox where
  x : Int
  y : Int
  width : Int
  height : Int
deriving DecidableEq, Repr

structure Package where
  id : String
  apartment : String
  trackingLast4 : String
  carrier : String
  recipient : String
  fullTracking : String
  importedAt : Nat
  status : PackageStatus
deriving DecidableEq, Repr

structure Detection where
  id : String
  photoId : String
  boundingBox : BoundingBox
  rawText : String
  parsedApartment : Option String
  parsedLast4 : Option String
  parsedDate : Option String
  parsedInitials : Option String
  confidence : Int
  matchedPackageId : Option String
  status : DetectionStatus
  notes : Option String
deriving DecidableEq, Repr

structure ParsingError where
  lineNumber : Nat
  line : String
  reason : String
deriving DecidableEq, Repr

/-! ## JS string helpers -/

/-- JS falsiness of a nullable string: `null`/`undefined` and `""` are falsy. -/
def strFalsy : Option String → Bool
  | none => true
  | some s => s == ""

/-- JS truthiness of a nullable string. -/
def strTruthy (s : Option String) : Bool := !(strFalsy s)

/-- The combo key `` `${apartment}:${last4}` `` used by the matching code. -/
def comboKey (a l : String) : String := a ++ ":" ++ l

/-! ## `matchDetections` (`src/utils/matchingAlgorithm.ts`, lines 16-100) -/

/-- Combo key of a package, `` `${pkg.apartment}:${pkg.trackingLast4}` ``. -/
def comboOfPkg (p : Package) : String := comboKey p.apartment p.trackingLast4

/-- `pkg.status === 'found' || pkg.status === 'verified'`. -/
def isFoundOrVerified (p : Package) : Bool :=
  p.status == PackageStatus.found || p.status == PackageStatus.verified

/-- The seed of the `matchedCombos` set: combos of already found/verified
packages (lines 31-36 of `matchingAlgorithm.ts`). -/
def foundVerifiedCombos (pkgs : List Package) : List String :=
  (pkgs.filter isFoundOrVerified).map comboOfPkg

/-- The filter predicate of lines 57-62: apartment and last4 equal the
parsed values and the package is still pending. -/
def pendingMatch (pa pl : String) (p : Package) : Bool :=
  p.apartment == pa && p.trackingLast4 == pl && p.status == PackageStatus.pending

/-- Note text appended on an orphan classification. -/
def orphanNote : String := "Sticker not found in imported package list."

/-- Note text appended on an ambiguous classification. -/
def ambiguousNote : String := "Multiple packages match this apartment and tracking number."

/-- `detection.notes ? detection.notes + ". " + msg : msg` (notes are
appended, an absent or empty notes field is replaced). -/
def appendNote (notes : Option String) (msg : String) : Option String :=
  match notes with
  | some s => if s == "" then some msg else some (s ++ ". " ++ msg)
  | none => some msg

/-- Intermediate state of the detection loop: the (copied) package list
and the `matchedCombos` set, modelled as the list of inserted keys. -/
structure MatchState where
  pkgs : List Package
  combos : List String
deriving DecidableEq, Repr

/-- One iteration of the `updatedDetections.forEach` loop of
`matchDetections` (lines 39-94): classifies a single detection and
updates the package list and the claimed-combo set. -/
def matchStep (st : MatchState) (d : Detection) : MatchState × Detection :=
  if strFalsy d.parsedApartment || strFalsy d.parsedLast4 then
    (st, { d with status := DetectionStatus.unreadable })
  else
    let pa := d.parsedApartment.getD ""
    let pl := d.parsedLast4.getD ""
    let key := comboKey pa pl
    if st.combos.contains key then
      (st, { d with status := DetectionStatus.duplicate })
    else
      match st.pkgs.filter (pendingMatch pa pl) with
      | [pkg] =>
          ({ pkgs := st.pkgs.map (fun q =>
                if pendingMatch pa pl q then { q with status := PackageStatus.found } else q),
             combos := st.combos ++ [key] },
           { d with status := DetectionStatus.matched, matchedPackageId := some pkg.id })
      | [] =>
          (st, { d with status := DetectionStatus.orphan,
                        notes := appendNote d.notes orphanNote })
      | _ :: _ :: _ =>
          (st, { d with status := DetectionStatus.ambiguous,
                        notes := appendNote d.notes ambiguousNote })

/-- The detection loop over the whole batch, in input order. -/
def matchDetectionsAux : MatchState → List Detection → MatchState × List Detection
  | st, [] => (st, [])
  | st, d :: ds =>
      let r := matchStep st d
      let rest := matchDetectionsAux r.1 ds
      (rest.1, r.2 :: rest.2)

structure MatchResult where
  updatedPackages : List Package
  updatedDetections : List Detection
deriving DecidableEq, Repr

/-- `matchDetections(packages, detections)`: deep-copies its inputs
(identity in the pure model), seeds `matchedCombos` with found/verified
package combos, then classifies every detection in input order. -/
def matchDetections (packages : List Package) (detections : List Detection) : MatchResult :=
  let st0 : MatchState := { pkgs := packages, combos := foundVerifiedCombos packages }
  let r := matchDetectionsAux st0 detections
  { updatedPackages := r.1.pkgs, updatedDetections := r.2 }

/-! ## `rematchSingleDetection` (`matchingAlgorithm.ts`, lines 106-138) -/

/-- The `matchedCombos` set built by `rematchSingleDetection`
(lines 115-129): combos of found/verified packages plus combos of the
*other* detections that are currently matched or duplicate. -/
def rematchCombos (packages : List Package) (detection : Detection)
    (allDetections : List Detection) : List String :=
  foundVerifiedCombos packages ++
    ((allDetections.filter (fun det =>
        det.id != detection.id &&
        (det.status == DetectionStatus.matched || det.status == DetectionStatus.duplicate) &&
        strTruthy det.parsedApartment && strTruthy det.parsedLast4)).map
      (fun det => comboKey (det.parsedApartment.getD "") (det.parsedLast4.getD "")))

structure RematchResult where
  updatedPackages : List Package
  updatedDetection : Detection
deriving DecidableEq, Repr

/-- `rematchSingleDetection(packages, detection, allDetections)`: the
source computes `matchedCombos` from the other detections and the
found/verified packages, then calls `matchDetections(packages,
[detection])` and returns its result; the computed set is not passed on. -/
def rematchSingleDetection (packages : List Package) (detection : Detection)
    (allDetections : List Detection) : RematchResult :=
  let _matchedCombos := rematchCombos packages detection allDetections
  let result := matchDetections packages [detection]
  { updatedPackages := result.updatedPackages,
    updatedDetection := result.updatedDetections.headD detection }

/-! ## `parsePackageList` (`src/utils/parsePackageList.ts`)

The manifest parser.  Its regular expressions are translated into
explicit scanners with the leftmost / greedy / backtracking semantics
they have in JS at these call sites:

* `/\s+-\s+(#\d+)/` (search) — `findCarrierRef`;
* `/^([A-Z]\d{2}[A-Z])/i` — `aptMatch`;
* `/^Unit\s+/i` (replace with `""`) — `stripUnit`;
* `split(/\s{2,}/)` — `splitWs2`; `split(/\s+/)` — `splitWs1`;
* `/^(NO\s+TRACKING|NO\s+TRK|NO\s+TRACKING\s+NUMBER)/i` (test) —
  `noTrackingTest`;
* `/^(NO\s+(?:TRACKING|TRK)(?:\s+NUMBER)?)\s+[-\s]*(.+)/i` —
  `noTrackMatchFn` (with the backtracking of the optional
  `(?:\s+NUMBER)?` group and of `[-\s]*` made explicit).
-/

/-- JS `split(sep)` with a non-empty literal separator `c0 :: sep`:
non-overlapping leftmost matches.  The recursion consumes one input
character per step (`skip` counts separator characters still to drop
after a match), so it is structural and the kernel can evaluate it
(`String.splitOn` uses well-founded recursion, which the kernel cannot
reduce). -/
def splitOnGo (c0 : Char) (sep : List Char) : List Char → List Char → Nat → List (List Char)
  | [], acc, _ => [acc.reverse]
  | c :: rest, acc, 0 =>
      if (c0 :: sep).isPrefixOf (c :: rest) then
        acc.reverse :: splitOnGo c0 sep rest [] sep.length
      else splitOnGo c0 sep rest (c :: acc) 0
  | _ :: rest, acc, skip + 1 => splitOnGo c0 sep rest acc skip

/-- JS `s.split(sep)` for a literal separator. -/
def jsSplitOn (sep : String) (s : String) : List String :=
  match sep.data with
  | [] => [s]
  | c0 :: rest => (splitOnGo c0 rest s.data [] 0).map String.mk

/-- `join(' ')` on character lists. -/
def joinSpaceL : List (List Char) → List Char
  | [] => []
  | [f] => f
  | f :: g :: rest => f ++ ' ' :: joinSpaceL (g :: rest)

/-- JS `trim()` on a character list (ASCII whitespace model). -/
def listTrim (cs : List Char) : List Char :=
  ((cs.dropWhile Char.isWhitespace).reverse.dropWhile Char.isWhitespace).reverse

/-- JS `trim()`. -/
def jsTrim (s : String) : String := String.mk (listTrim s.data)

/-- Single pass behind `split(/\s+/)`: `mode = true` while consuming a
separator run of whitespace. -/
def splitWs1Go : List Char → List Char → Bool → List (List Char)
  | [], acc, _ => [acc.reverse]
  | c :: rest, acc, true =>
      if c.isWhitespace then splitWs1Go rest acc true
      else splitWs1Go rest (c :: acc) false
  | c :: rest, acc, false =>
      if c.isWhitespace then acc.reverse :: splitWs1Go rest [] true
      else splitWs1Go rest (c :: acc) false

/-- JS `split(/\s+/)`: separators are maximal whitespace runs. -/
def splitWs1 (cs : List Char) : List (List Char) := splitWs1Go cs [] false

/-- Single pass behind `split(/\s{2,}/)`: separators are maximal
whitespace runs of length at least two; a lone whitespace character is
field content.  `mode = true` while consuming a separator run. -/
def splitWs2Go : List Char → List Char → Bool → List (List Char)
  | [], acc, _ => [acc.reverse]
  | c :: rest, acc, true =>
      if c.isWhitespace then splitWs2Go rest acc true
      else splitWs2Go rest (c :: acc) false
  | c :: rest, acc, false =>
      if c.isWhitespace then
        match rest with
        | [] => [(c :: acc).reverse]
        | c2 :: rest2 =>
            if c2.isWhitespace then acc.reverse :: splitWs2Go rest2 [] true
            else splitWs2Go rest2 (c2 :: c :: acc) false
      else splitWs2Go rest (c :: acc) false

/-- JS `split(/\s{2,}/)`. -/
def splitWs2 (cs : List Char) : List (List Char) := splitWs2Go cs [] false

/-- Does a match of `/\s+-\s+#\d+/` start exactly here?  (The greedy
`\s+` runs cannot backtrack usefully because `-` and `#` are not
whitespace, so the run is maximal.) -/
def refMatchAt : List Char → Bool
  | [] => false
  | c :: rest =>
      c.isWhitespace &&
      (match rest.dropWhile Char.isWhitespace with
       | '-' :: r2 =>
          (match r2 with
           | c2 :: r2' =>
              c2.isWhitespace &&
              (match r2'.dropWhile Char.isWhitespace with
               | '#' :: r4 => (match r4 with | d :: _ => d.isDigit | [] => false)
               | _ => false)
           | [] => false)
       | _ => false)

/-- Scan for the leftmost match position. -/
def findCarrierRefGo : Nat → List Char → Option Nat
  | _, [] => none
  | i, c :: rest => if refMatchAt (c :: rest) then some i else findCarrierRefGo (i + 1) rest

/-- `trimmedLine.match(/\s+-\s+(#\d+)/)` — `some i` is `match.index`. -/
def findCarrierRef (cs : List Char) : Option Nat := findCarrierRefGo 0 cs

/-- `/^([A-Z]\d{2}[A-Z])/i`: the four matched characters, if any. -/
def aptMatch : List Char → Option (List Char)
  | c1 :: c2 :: c3 :: c4 :: _ =>
      if c1.isAlpha && c2.isDigit && c3.isDigit && c4.isAlpha
      then some [c1, c2, c3, c4] else none
  | _ => none

/-- The shape `/^[A-Z]\d{2}[A-Z]$/` of a normalized apartment code. -/
def aptShape (s : String) : Bool :=
  match s.data with
  | [c1, c2, c3, c4] => c1.isUpper && c2.isDigit && c3.isDigit && c4.isUpper
  | _ => false

/-- `replace(/^Unit\s+/i, '')`. -/
def stripUnit (cs : List Char) : List Char :=
  match cs with
  | u :: n :: i :: t :: rest =>
      if u.toUpper == 'U' && n.toUpper == 'N' && i.toUpper == 'I' && t.toUpper == 'T' &&
         (match rest with | c :: _ => c.isWhitespace | [] => false)
      then rest.dropWhile Char.isWhitespace
      else cs
  | _ => cs

/-- Case-insensitive literal matcher: on success returns the actually
consumed input characters (for verbatim capture groups) and the rest. -/
def ciSplitLit : List Char → List Char → Option (List Char × List Char)
  | [], cs => some ([], cs)
  | _ :: _, [] => none
  | p :: ps, c :: cs =>
      if p.toUpper == c.toUpper then
        match ciSplitLit ps cs with
        | some pr => some (c :: pr.1, pr.2)
        | none => none
      else none

/-- `/^(NO\s+TRACKING|NO\s+TRK|NO\s+TRACKING\s+NUMBER)/i.test(...)` —
the third alternative is subsumed by the first. -/
def noTrackingTest (cs : List Char) : Bool :=
  match ciSplitLit [ 'N', 'O' ] cs with
  | none => false
  | some prNo =>
      match prNo.2 with
      | c :: rest =>
          c.isWhitespace &&
          (let r2 := rest.dropWhile Char.isWhitespace
           (ciSplitLit "TRACKING".data r2).isSome || (ciSplitLit "TRK".data r2).isSome)
      | [] => false

/-- The trailing `\s+[-\s]*(.+)` of the no-tracking regex; returns the
characters captured by `(.+)`.  When everything after the first
whitespace is dashes/whitespace, backtracking hands the final character
to `(.+)`. -/
def tailMatch : List Char → Option (List Char)
  | [] => none
  | c :: rest =>
      if c.isWhitespace then
        match ((c :: rest).dropWhile Char.isWhitespace).dropWhile
            (fun ch => ch == '-' || ch.isWhitespace) with
        | c2 :: r2 => some (c2 :: r2)
        | [] =>
            match rest with
            | [] => none
            | _ :: _ => some [(c :: rest).getLastD c]
      else none

structure NoTrackGroups where
  g1 : List Char
  g2 : List Char
deriving DecidableEq, Repr

/-- Continuation after `NO\s+(TRACKING|TRK)` was consumed (`g1base` are
the consumed characters): try the greedy optional `(?:\s+NUMBER)?`
first, falling back to the shorter parse when the tail fails. -/
def noTrackAfterWord (g1base : List Char) (r : List Char) : Option NoTrackGroups :=
  let withNum : Option NoTrackGroups :=
    match r with
    | c :: rest =>
        if c.isWhitespace then
          let ws := (c :: rest).takeWhile Char.isWhitespace
          let r2 := (c :: rest).dropWhile Char.isWhitespace
          match ciSplitLit "NUMBER".data r2 with
          | some prN =>
              match tailMatch prN.2 with
              | some g2 => some { g1 := g1base ++ ws ++ prN.1, g2 := g2 }
              | none => none
          | none => none
        else none
    | [] => none
  match withNum with
  | some m => some m
  | none =>
      match tailMatch r with
      | some g2 => some { g1 := g1base, g2 := g2 }
      | none => none

/-- `trackingAndRecipient.match(/^(NO\s+(?:TRACKING|TRK)(?:\s+NUMBER)?)\s+[-\s]*(.+)/i)`.
When `TRACKING` matches at a position, `TRK` cannot (its `K` meets the
`A`), so no cross-alternative backtracking is needed. -/
def noTrackMatchFn (t : List Char) : Option NoTrackGroups :=
  match ciSplitLit [ 'N', 'O' ] t with
  | none => none
  | some prNo =>
      match prNo.2 with
      | c :: rest =>
          if c.isWhitespace then
            let ws := (c :: rest).takeWhile Char.isWhitespace
            let r2 := (c :: rest).dropWhile Char.isWhitespace
            match ciSplitLit "TRACKING".data r2 with
            | some prW => noTrackAfterWord (prNo.1 ++ ws ++ prW.1) prW.2
            | none =>
                match ciSplitLit "TRK".data r2 with
                | some prW => noTrackAfterWord (prNo.1 ++ ws ++ prW.1) prW.2
                | none => none
          else none
      | [] => none

/-- `indexOf('\t')` truncation of the carrier/tracking part (lines 93-97). -/
def tabTruncate (cs : List Char) : List Char :=
  if cs.contains '\t' then listTrim (cs.takeWhile (fun c => !(c == '\t'))) else cs

/-- `tokens.slice(1).join(' ')`. -/
def joinSpace (fields : List (List Char)) : String :=
  String.mk (joinSpaceL fields)

/-- `fullTracking.slice(-4)` (only used when the length is at least 4). -/
def slice4 (s : String) : String := String.mk (s.data.drop (s.data.length - 4))

/-- Error strings of the source, verbatim. -/
def insufficientFieldsReason (n : Nat) : String :=
  "Insufficient fields - found " ++ toString n ++
    ", expected at least 3 (apartment, entity, carrier/tracking)"

def apartmentAnchorReason : String :=
  "No valid apartment code found at start of line (expected format: C##L, N##L, etc.)"

def apartmentFieldReason (f : String) : String :=
  "No valid apartment code found in \"" ++ f ++
    "\" (expected format: C##L, N##L, etc. - any letter + 2 digits + letter)"

def carrierNameReason : String := "Could not identify carrier name"

def carrierFormatReason (ctf : String) (n : Nat) : String :=
  "Invalid carrier/tracking format in \"" ++ ctf ++
    "\" - expected \"CARRIER - #REF - TRACKING RECIPIENT\" (found " ++ toString n ++
    " parts, need 3)"

def trackingSepReason : String := "Could not separate tracking number from recipient name"

def trackingShortReason : String := "Tracking number too short (need at least 4 characters)"

def duplicateReason (a l4 : String) : String :=
  "Duplicate entry (" ++ a ++ " + " ++ l4 ++ " already exists)"

/-- Segmentation and apartment extraction (lines 36-131): the anchor
path when `/\s+-\s+#\d+/` matches, else the tab / multi-space fallback.
Returns `(apartment, carrierTrackingField)`. -/
def segmentLine (t : String) : Except String (String × String) :=
  let cs := t.data
  match findCarrierRef cs with
  | some idx =>
      let beforeCs := cs.take idx
      let fromCs := listTrim (cs.drop idx)
      match aptMatch beforeCs with
      | none => Except.error apartmentAnchorReason
      | some apt4 =>
          let apartment := String.mk (apt4.map Char.toUpper)
          let afterApartment := listTrim (beforeCs.drop 4)
          let withoutUnit := stripUnit afterApartment
          let words := splitWs1 (listTrim withoutUnit)
          if words.length < 2 then Except.error carrierNameReason
          else
            let carrier := String.mk (words.getLastD [])
            let ctp := tabTruncate fromCs
            Except.ok (apartment, String.mk (carrier.data ++ (' ' :: ctp)))
  | none =>
      let fields := if cs.contains '\t'
        then (jsSplitOn "\t" t).map jsTrim
        else (splitWs2 cs).map (fun f => jsTrim (String.mk f))
      if fields.length < 3 then Except.error (insufficientFieldsReason fields.length)
      else
        match aptMatch (fields.headD "").data with
        | none => Except.error (apartmentFieldReason (fields.headD ""))
        | some apt4 => Except.ok (String.mk (apt4.map Char.toUpper), fields.getD 2 "")

/-- Decomposition of the trailing `TRACKING RECIPIENT` segment
(lines 150-195), returning `(fullTracking, recipient, trackingLast4)`. -/
def parseTrackingSegment (tar : String) : Except String (String × String × String) :=
  if noTrackingTest tar.data then
    match noTrackMatchFn tar.data with
    | some m =>
        if jsTrim (String.mk m.g2) = "" then Except.ok (jsTrim tar, "UNKNOWN", "NONE")
        else Except.ok (jsTrim (String.mk m.g1), jsTrim (String.mk m.g2), "NONE")
    | none => Except.ok (jsTrim tar, "UNKNOWN", "NONE")
  else
    let tokens := splitWs1 tar.data
    if tokens.length < 2 then Except.error trackingSepReason
    else
      let fullTracking := String.mk (tokens.headD [])
      let recipient := joinSpace (tokens.drop 1)
      if fullTracking.length < 4 then Except.error trackingShortReason
      else Except.ok (fullTracking, recipient, slice4 fullTracking)

structure ParseFields where
  apartment : String
  carrier : String
  fullTracking : String
  recipient : String
  trackingLast4 : String
deriving DecidableEq, Repr

/-- The whole `try` block for one (trimmed, non-blank) line: either the
extracted fields or the reason string of the error pushed for the line. -/
def parseLineCore (t : String) : Except String ParseFields :=
  match segmentLine t with
  | Except.error r => Except.error r
  | Except.ok seg =>
      let ctf := seg.2
      let parts := jsSplitOn " - " ctf
      if parts.length < 3 then Except.error (carrierFormatReason ctf parts.length)
      else
        let carrier := jsTrim (parts.headD "")
        let tar := jsTrim (parts.getD 2 "")
        match parseTrackingSegment tar with
        | Except.error r => Except.error r
        | Except.ok ftr =>
            Except.ok { apartment := seg.1, carrier := carrier,
                        fullTracking := ftr.1, recipient := ftr.2.1,
                        trackingLast4 := ftr.2.2 }

/-- Package construction (lines 210-219).  `uuidv4()` and `Date.now()`
are nondeterministic in the source; they are modelled by a line-number
derived id and a fixed timestamp, on which no verified property depends. -/
def mkPackage (n : Nat) (f : ParseFields) : Package :=
  { id := "pkg-" ++ toString n, apartment := f.apartment,
    trackingLast4 := f.trackingLast4, carrier := f.carrier,
    recipient := f.recipient, fullTracking := f.fullTracking,
    importedAt := 0, status := PackageStatus.pending }

structure ParseResult where
  packages : List Package
  errors : List ParsingError
deriving DecidableEq, Repr

/-- The `lines.forEach` loop: `n` is the 1-based number of the first line
of `rest`, `seen` the accumulated `seenCombos` set. -/
def parseLines : Nat → List String → List String → ParseResult
  | _, _, [] => { packages := [], errors := [] }
  | n, seen, line :: rest =>
      let t := jsTrim line
      if t = "" then parseLines (n + 1) seen rest
      else
        match parseLineCore t with
        | Except.error reason =>
            let r := parseLines (n + 1) seen rest
            let e : ParsingError := { lineNumber := n, line := t, reason := reason }
            { r with errors := e :: r.errors }
        | Except.ok f =>
            let key := comboKey f.apartment f.trackingLast4
            if seen.contains key then
              let r := parseLines (n + 1) seen rest
              let e : ParsingError := { lineNumber := n, line := t, reason := duplicateReason f.apartment f.trackingLast4 }
              { r with errors := e :: r.errors }
            else
              let r := parseLines (n + 1) (key :: seen) rest
              { r with packages := mkPackage n f :: r.packages }

/-- `parsePackageList(rawText)`. -/
def parsePackageList (rawText : String) : ParseResult :=
  parseLines 1 [] (jsSplitOn "\n" rawText)

/-! ## Notions used in the second-run analysis -/

/-- A combo key is claimed by a package list when some found/verified
package carries it (the seed of `matchedCombos`). -/
def claimed (pkgs : List Package) (k : String) : Bool :=
  (foundVerifiedCombos pkgs).contains k

/-- Parsed apartment of a detection with JS `|| ""` defaulting. -/
def paOf (d : Detection) : String := d.parsedApartment.getD ""

/-- Parsed last4 of a detection with JS `|| ""` defaulting. -/
def plOf (d : Detection) : String := d.parsedLast4.getD ""

/-- Combo key of a detection's parsed fields. -/
def keyOf (d : Detection) : String := comboKey (paOf d) (plOf d)

/-- Both parsed fields are non-null and non-empty. -/
def NonFalsy (d : Detection) : Prop :=
  (strFalsy d.parsedApartment || strFalsy d.parsedLast4) = false

/-- Relation between a detection as returned by `matchDetections` and
the returned package list `P`: what its final status guarantees about
`P`.  This is the invariant a second run is classified against. -/
def SecondRunPost (P : List Package) (d : Detection) : Prop :=
  (d.status = DetectionStatus.unreadable ∧
    (strFalsy d.parsedApartment || strFalsy d.parsedLast4) = true) ∨
  ((d.status = DetectionStatus.matched ∨ d.status = DetectionStatus.duplicate) ∧
    NonFalsy d ∧ claimed P (keyOf d) = true) ∨
  (d.status = DetectionStatus.orphan ∧ NonFalsy d ∧ claimed P (keyOf d) = false ∧
    P.filter (pendingMatch (paOf d) (plOf d)) = []) ∨
  (d.status = DetectionStatus.ambiguous ∧ NonFalsy d ∧ claimed P (keyOf d) = false ∧
    2 ≤ (P.filter (pendingMatch (paOf d) (plOf d))).length)

/-- The claimed-combo list coincides with the claimed combos of the
package list — an invariant of the matching loop. -/
def CombosInv (st : MatchState) : Prop :=
  ∀ k, st.combos.contains k = claimed st.pkgs k

/-- No parsed apartment of the batch contains the `':'` separator used
to build combo keys (true of every well-formed apartment code). -/
def DetsColonFree (ds : List Detection) : Prop :=
  ∀ e ∈ ds, ∀ s, e.parsedApartment = some s → ¬ (':' ∈ s.data)

/-! ## Relations used to state the frame properties -/

/-- How a package can evolve inside one `matchDetections` call: it is
either returned unchanged or marked `found`. -/
def PkgEvolves (p q : Package) : Prop :=
  q = p ∨ q = { p with status := PackageStatus.found }

/-- The detection fields `matchDetections` never alters. -/
def DetFrame (d e : Detection) : Prop :=
  e.id = d.id ∧ e.photoId = d.photoId ∧ e.boundingBox = d.boundingBox ∧
  e.rawText = d.rawText ∧ e.parsedApartment = d.parsedApartment ∧
  e.parsedLast4 = d.parsedLast4 ∧ e.parsedDate = d.parsedDate ∧
  e.parsedInitials = d.parsedInitials ∧ e.confidence = d.confidence

/-! ## Concrete records used by the counterexamples and witnesses -/

/-- A default bounding box for sample detections. -/
def bb0 : BoundingBox := { x := 10, y := 10, width := 20, height := 20 }

/-- Sample pending package with combo `A01B:1234`. -/
def pkgA : Package :=
  { id := "pkg-a", apartment := "A01B", trackingLast4 := "1234", carrier := "UPS",
    recipient := "JANE ROE", fullTracking := "1Z00001234", importedAt := 0,
    status := PackageStatus.pending }

/-- Sample detection (the one being re-matched) with parsed combo `A01B:1234`. -/
def detA : Detection :=
  { id := "det-a", photoId := "photo-1", boundingBox := bb0, rawText := "A01B 1234",
    parsedApartment := some "A01B", parsedLast4 := some "1234", parsedDate := none,
    parsedInitials := none, confidence := 1, matchedPackageId := none,
    status := DetectionStatus.orphan, notes := none }

/-- Another detection with the same parsed combo `A01B:1234`, currently matched. -/
def detB : Detection :=
  { id := "det-b", photoId := "photo-1", boundingBox := bb0, rawText := "A01B 1234",
    parsedApartment := some "A01B", parsedLast4 := some "1234", parsedDate := none,
    parsedInitials := none, confidence := 1, matchedPackageId := some "pkg-a",
    status := DetectionStatus.matched, notes := none }

/-- Pending package whose apartment is the empty string (combo `:1234`). -/
def pkgE : Package :=
  { id := "pkg-e", apartment := "", trackingLast4 := "1234", carrier := "UPS",
    recipient := "JOHN DOE", fullTracking := "1Z00091234", importedAt := 0,
    status := PackageStatus.pending }

/-- Detection with the non-null but empty parsed apartment `some ""`. -/
def detE : Detection :=
  { id := "det-e", photoId := "photo-1", boundingBox := bb0, rawText := "1234",
    parsedApartment := some "", parsedLast4 := some "1234", parsedDate := none,
    parsedInitials := none, confidence := 1, matchedPackageId := none,
    status := DetectionStatus.orphan, notes := none }

/-! ## Matching algorithm: step-level lemmas -/

theorem pkgEvolves_refl (p : Package) : PkgEvolves p p := Or.inl rfl

theorem pkgEvolves_trans {p q r : Package} (h1 : PkgEvolves p q) (h2 : PkgEvolves q r) :
    PkgEvolves p r := by
  rcases h1 with h1 | h1 <;> rcases h2 with h2 | h2 <;> subst h1 <;> subst h2 <;>
    simp [PkgEvolves]

theorem matchStep_det_frame (st : MatchState) (d : Detection) :
    DetFrame d (matchStep st d).2 := by
  unfold matchStep
  dsimp only
  split
  · exact ⟨rfl, rfl, rfl, rfl, rfl, rfl, rfl, rfl, rfl⟩
  · split
    · exact ⟨rfl, rfl, rfl, rfl, rfl, rfl, rfl, rfl, rfl⟩
    · split <;> exact ⟨rfl, rfl, rfl, rfl, rfl, rfl, rfl, rfl, rfl⟩

theorem matchStep_pkgs_length (st : MatchState) (d : Detection) :
    (matchStep st d).1.pkgs.length = st.pkgs.length := by
  unfold matchStep
  dsimp only
  split
  · rfl
  · split
    · rfl
    · split <;> simp

theorem getElem?_map_if {α : Type} (l : List α) (c : α → Bool) (f : α → α) (i : Nat) (q : α)
    (hq : l[i]? = some q) :
    ∃ q', (l.map (fun x => if c x then f x else x))[i]? = some q' ∧ (q' = q ∨ q' = f q) := by
  refine ⟨if c q then f q else q, by simp [List.getElem?_map, hq], ?_⟩
  split
  · exact Or.inr rfl
  · exact Or.inl rfl

theorem matchStep_pkgs_evolve (st : MatchState) (d : Detection) (i : Nat) (q : Package)
    (hq : st.pkgs[i]? = some q) :
    ∃ q', (matchStep st d).1.pkgs[i]? = some q' ∧ PkgEvolves q q' := by
  unfold matchStep
  dsimp only
  split
  · exact ⟨q, hq, pkgEvolves_refl q⟩
  · split
    · exact ⟨q, hq, pkgEvolves_refl q⟩
    · split
      · obtain ⟨q', h1, h2⟩ := getElem?_map_if st.pkgs
          (pendingMatch (d.parsedApartment.getD "") (d.parsedLast4.getD ""))
          (fun q => { q with status := PackageStatus.found }) i q hq
        exact ⟨q', h1, h2⟩
      · exact ⟨q, hq, pkgEvolves_refl q⟩
      · exact ⟨q, hq, pkgEvolves_refl q⟩

theorem matchStep_combos_mono (st : MatchState) (d : Detection) (k : String)
    (h : k ∈ st.combos) : k ∈ (matchStep st d).1.combos := by
  unfold matchStep
  dsimp only
  split
  · exact h
  · split
    · exact h
    · split
      · exact List.mem_append.2 (Or.inl h)
      · exact h
      · exact h

theorem matchStep_found_stable (st : MatchState) (d : Detection) (q : Package)
    (hq : q ∈ st.pkgs) (hs : q.status = PackageStatus.found) :
    q ∈ (matchStep st d).1.pkgs := by
  unfold matchStep
  dsimp only
  split
  · exact hq
  · split
    · exact hq
    · split
      · refine List.mem_map.2 ⟨q, hq, ?_⟩
        have hst : (q.status == PackageStatus.pending) = false := by rw [hs]; rfl
        have hpm : pendingMatch (d.parsedApartment.getD "") (d.parsedLast4.getD "") q = false := by
          unfold pendingMatch
          rw [hst, Bool.and_false]
        simp [hpm]
      · exact hq
      · exact hq

/-! ## Matching algorithm: loop-level lemmas -/

theorem matchAux_dets_length (st : MatchState) (ds : List Detection) :
    (matchDetectionsAux st ds).2.length = ds.length := by
  induction ds generalizing st with
  | nil => rfl
  | cons d ds ih => simp [matchDetectionsAux, ih]

theorem matchAux_pkgs_length (st : MatchState) (ds : List Detection) :
    (matchDetectionsAux st ds).1.pkgs.length = st.pkgs.length := by
  induction ds generalizing st with
  | nil => rfl
  | cons d ds ih =>
      simp only [matchDetectionsAux]
      rw [ih, matchStep_pkgs_length]

theorem matchAux_combos_mono (st : MatchState) (ds : List Detection) (k : String)
    (h : k ∈ st.combos) : k ∈ (matchDetectionsAux st ds).1.combos := by
  induction ds generalizing st with
  | nil => exact h
  | cons d ds ih => exact ih _ (matchStep_combos_mono st d k h)

theorem matchAux_found_stable (st : MatchState) (ds : List Detection) (q : Package)
    (hq : q ∈ st.pkgs) (hs : q.status = PackageStatus.found) :
    q ∈ (matchDetectionsAux st ds).1.pkgs := by
  induction ds generalizing st with
  | nil => exact hq
  | cons d ds ih => exact ih _ (matchStep_found_stable st d q hq hs)

theorem matchAux_pkgs_evolve (st : MatchState) (ds : List Detection) (i : Nat) (q : Package)
    (hq : st.pkgs[i]? = some q) :
    ∃ q', (matchDetectionsAux st ds).1.pkgs[i]? = some q' ∧ PkgEvolves q q' := by
  induction ds generalizing st q with
  | nil => exact ⟨q, hq, pkgEvolves_refl q⟩
  | cons d ds ih =>
      obtain ⟨q1, hq1, he1⟩ := matchStep_pkgs_evolve st d i q hq
      obtain ⟨q2, hq2, he2⟩ := ih _ q1 hq1
      exact ⟨q2, hq2, pkgEvolves_trans he1 he2⟩

theorem matchAux_det_frame (st : MatchState) (ds : List Detection) (i : Nat) (d : Detection)
    (hd : ds[i]? = some d) :
    ∃ e, (matchDetectionsAux st ds).2[i]? = some e ∧ DetFrame d e := by
  induction ds generalizing st i with
  | nil => simp at hd
  | cons d0 ds ih =>
      cases i with
      | zero =>
          simp only [List.getElem?_cons_zero, Option.some.injEq] at hd
          subst hd
          exact ⟨(matchStep st d0).2, by simp [matchDetectionsAux], matchStep_det_frame st d0⟩
      | succ i =>
          simp only [List.getElem?_cons_succ] at hd
          obtain ⟨e, he, hf⟩ := ih (matchStep st d0).1 i hd
          exact ⟨e, by simpa [matchDetectionsAux] using he, hf⟩

theorem matchAux_dup_propagates (st : MatchState) (ds : List Detection) (i : Nat)
    (e : Detection) (a l : String)
    (hkey : comboKey a l ∈ st.combos)
    (hd : ds[i]? = some e)
    (hea : e.parsedApartment = some a) (hea' : a ≠ "")
    (hel : e.parsedLast4 = some l) (hel' : l ≠ "") :
    ∃ e', (matchDetectionsAux st ds).2[i]? = some e' ∧ e'.status = DetectionStatus.duplicate := by
  induction ds generalizing st i with
  | nil => simp at hd
  | cons d0 ds ih =>
      cases i with
      | zero =>
          simp only [List.getElem?_cons_zero, Option.some.injEq] at hd
          subst hd
          refine ⟨(matchStep st d0).2, by simp [matchDetectionsAux], ?_⟩
          unfold matchStep
          have h1 : strFalsy d0.parsedApartment = false := by
            simp [strFalsy, hea, hea']
          have h2 : strFalsy d0.parsedLast4 = false := by
            simp [strFalsy, hel, hel']
          rw [h1, h2]
          simp only [Bool.false_or, Bool.or_self, if_false]
          rw [hea, hel]
          simp [hkey]
      | succ i =>
          simp only [List.getElem?_cons_succ] at hd
          obtain ⟨e', he', hs'⟩ :=
            ih (matchStep st d0).1 i (matchStep_combos_mono st d0 _ hkey) hd
          exact ⟨e', by simpa [matchDetectionsAux] using he', hs'⟩

/-!
## C1: `rematchSingleDetection` vs a full batch re-run

The spec requires the claimed-combo set rebuilt from the other
detections to make single re-matching agree with a full batch re-run.
The source builds that set (lines 115-129) but never consults it: the
call on line 132 passes only `packages` and `[detection]`.  With
`packages = [pkgA]` and `allDetections = [detB, detA]` (where `detB` is
another detection already matched on the same combo), the single re-run
classifies `detA` as `matched` while the batch re-run over the same
inputs classifies it as `duplicate`.
-/

/-- C1: at the concrete input `([pkgA], detA, [detB, detA])` the single
re-match classifies `detA` as `matched`, a full `matchDetections` run
over the same packages and detections classifies `detA` (in position 1)
as `duplicate`, even though the claimed-combo set the function builds
does contain the key `A01B:1234` — the set is computed and then dropped. -/
theorem rematch_disagrees_with_batch_rerun :
    (rematchSingleDetection [pkgA] detA [detB, detA]).updatedDetection.status =
      DetectionStatus.matched ∧
    ((matchDetections [pkgA] [detB, detA]).updatedDetections.getD 1 detA).status =
      DetectionStatus.duplicate ∧
    (rematchCombos [pkgA] detA [detB, detA]).contains (comboKey "A01B" "1234") = true := by
  refine ⟨rfl, rfl, rfl⟩

/-!
## C10: the `allDetections` argument of `rematchSingleDetection` is dead

For fixed `packages` and `detection`, the result does not depend on
`allDetections` at all, and equals `matchDetections packages [detection]`.
-/

/-- C10: `rematchSingleDetection` returns the same result for any two
values of `allDetections`, and that result is exactly the result of
`matchDetections packages [detection]` — the claimed-combo set built
from the other detections is never consulted. -/
theorem rematch_independent_of_allDetections
    (packages : List Package) (detection : Detection)
    (dets1 dets2 : List Detection) :
    rematchSingleDetection packages detection dets1 =
      rematchSingleDetection packages detection dets2 ∧
    (rematchSingleDetection packages detection dets1).updatedPackages =
      (matchDetections packages [detection]).updatedPackages ∧
    (rematchSingleDetection packages detection dets1).updatedDetection =
      (matchDetections packages [detection]).updatedDetections.headD detection := by
  refine ⟨rfl, rfl, rfl⟩

/-! ## The exactly-one-match step (C3) -/

/-- Step lemma: with non-empty parsed fields, an unclaimed combo and a
unique pending match `p`, the step marks `p` found, the detection
matched with `matchedPackageId = p.id`, and claims the combo. -/
theorem matchStep_unique (st : MatchState) (d : Detection) (a l : String) (p : Package)
    (ha : d.parsedApartment = some a) (ha' : a ≠ "")
    (hl : d.parsedLast4 = some l) (hl' : l ≠ "")
    (hkey : ¬ comboKey a l ∈ st.combos)
    (huniq : st.pkgs.filter (pendingMatch a l) = [p]) :
    matchStep st d =
      ({ pkgs := st.pkgs.map (fun q =>
            if pendingMatch a l q then { q with status := PackageStatus.found } else q),
         combos := st.combos ++ [comboKey a l] },
       { d with status := DetectionStatus.matched, matchedPackageId := some p.id }) := by
  unfold matchStep
  rw [ha, hl]
  simp only [strFalsy, Option.getD_some]
  have ha2 : (a == "") = false := by simpa using ha'
  have hl2 : (l == "") = false := by simpa using hl'
  rw [ha2, hl2]
  simp only [Bool.or_self, Bool.false_eq_true, if_false]
  rw [if_neg (by simpa using hkey)]
  rw [huniq]

theorem matchAux_cons (st : MatchState) (d : Detection) (ds : List Detection) :
    matchDetectionsAux st (d :: ds) =
      ((matchDetectionsAux (matchStep st d).1 ds).1,
        (matchStep st d).2 :: (matchDetectionsAux (matchStep st d).1 ds).2) := rfl

/-- C3 (amended: the parsed fields must be non-null *and non-empty*,
since the source treats the empty string as falsy): a leading detection
with parsed combo `(a, l)` that is not already claimed and has exactly
one pending package `p` with equal `(apartment, trackingLast4)` is
classified `matched` with `matchedPackageId = p.id`, the package is
marked `found`, and every later detection of the same call with the
same parsed combo is classified `duplicate`. -/
theorem matchDetections_unique_match (pkgs : List Package) (d : Detection)
    (ds : List Detection) (a l : String) (p : Package)
    (ha : d.parsedApartment = some a) (ha' : a ≠ "")
    (hl : d.parsedLast4 = some l) (hl' : l ≠ "")
    (hkey : ¬ comboKey a l ∈ foundVerifiedCombos pkgs)
    (huniq : pkgs.filter (pendingMatch a l) = [p]) :
    ∃ (d' : Detection) (ds' : List Detection),
      (matchDetections pkgs (d :: ds)).updatedDetections = d' :: ds' ∧
      d'.status = DetectionStatus.matched ∧
      d'.matchedPackageId = some p.id ∧
      { p with status := PackageStatus.found } ∈ (matchDetections pkgs (d :: ds)).updatedPackages ∧
      (∀ (i : Nat) (e : Detection), ds[i]? = some e →
        e.parsedApartment = some a → e.parsedLast4 = some l →
        ∃ (e' : Detection), ds'[i]? = some e' ∧ e'.status = DetectionStatus.duplicate) := by
  have hstep := matchStep_unique { pkgs := pkgs, combos := foundVerifiedCombos pkgs }
    d a l p ha ha' hl hl' hkey huniq
  refine ⟨{ d with status := DetectionStatus.matched, matchedPackageId := some p.id },
    (matchDetectionsAux
      ({ pkgs := pkgs.map (fun q =>
            if pendingMatch a l q then { q with status := PackageStatus.found } else q),
         combos := foundVerifiedCombos pkgs ++ [comboKey a l] } : MatchState) ds).2,
    ?_, rfl, rfl, ?_, ?_⟩
  · show (matchDetectionsAux { pkgs := pkgs, combos := foundVerifiedCombos pkgs } (d :: ds)).2 = _
    rw [matchAux_cons, hstep]
  · have hp_filter : p ∈ pkgs.filter (pendingMatch a l) := by
      rw [huniq]; exact List.mem_singleton_self p
    have hp_mem : p ∈ pkgs := List.mem_of_mem_filter hp_filter
    have hp_pred : pendingMatch a l p = true := List.of_mem_filter hp_filter
    have h1 : ({ p with status := PackageStatus.found } : Package) ∈
        (pkgs.map (fun q =>
          if pendingMatch a l q then { q with status := PackageStatus.found } else q)) := by
      refine List.mem_map.2 ⟨p, hp_mem, ?_⟩
      simp [hp_pred]
    have h2 := matchAux_found_stable
      ({ pkgs := pkgs.map (fun q =>
            if pendingMatch a l q then { q with status := PackageStatus.found } else q),
         combos := foundVerifiedCombos pkgs ++ [comboKey a l] } : MatchState) ds _ h1 rfl
    show ({ p with status := PackageStatus.found } : Package) ∈
      (matchDetectionsAux { pkgs := pkgs, combos := foundVerifiedCombos pkgs } (d :: ds)).1.pkgs
    rw [matchAux_cons, hstep]
    exact h2
  · intro i e hie hea hel
    have hkmem : comboKey a l ∈ foundVerifiedCombos pkgs ++ [comboKey a l] :=
      List.mem_append.2 (Or.inr (List.mem_singleton_self _))
    exact matchAux_dup_propagates _ ds i e a l hkmem hie hea ha' hel hl'

/-- C3 counterexample to the claim as frozen: `detE` has *non-null*
parsed fields (`some ""`, `some "1234"`), the combo is unclaimed and
exactly one pending package (`pkgE`) has equal apartment and last4,
yet the code classifies the detection `unreadable` (the empty string is
falsy in JS), not `matched`, and marks no package. -/
theorem matchDetections_nonnull_empty_cex :
    detE.parsedApartment = some "" ∧ detE.parsedLast4 = some "1234" ∧
    [pkgE].filter (pendingMatch "" "1234") = [pkgE] ∧
    foundVerifiedCombos [pkgE] = [] ∧
    ((matchDetections [pkgE] [detE]).updatedDetections.headD detE).status =
      DetectionStatus.unreadable ∧
    (matchDetections [pkgE] [detE]).updatedPackages = [pkgE] := by
  refine ⟨rfl, rfl, rfl, rfl, rfl, rfl⟩

/-- C3 witness: the amended theorem applied at the concrete input of
spec scenario 4 (`pkgA`, `detA`). -/
theorem matchDetections_unique_match_witness :
    detA.parsedApartment = some "A01B" ∧ detA.parsedLast4 = some "1234" ∧
    (¬ comboKey "A01B" "1234" ∈ foundVerifiedCombos [pkgA]) ∧
    [pkgA].filter (pendingMatch "A01B" "1234") = [pkgA] ∧
    (∃ (d' : Detection) (ds' : List Detection),
      (matchDetections [pkgA] (detA :: [])).updatedDetections = d' :: ds' ∧
      d'.status = DetectionStatus.matched ∧
      d'.matchedPackageId = some pkgA.id ∧
      { pkgA with status := PackageStatus.found } ∈
        (matchDetections [pkgA] (detA :: [])).updatedPackages ∧
      (∀ (i : Nat) (e : Detection), ([] : List Detection)[i]? = some e →
        e.parsedApartment = some "A01B" → e.parsedLast4 = some "1234" →
        ∃ (e' : Detection), ds'[i]? = some e' ∧ e'.status = DetectionStatus.duplicate)) := by
  refine ⟨rfl, rfl, ?_, rfl, ?_⟩
  · rw [show foundVerifiedCombos [pkgA] = [] from rfl]
    exact List.not_mem_nil _
  · exact matchDetections_unique_match [pkgA] detA [] "A01B" "1234" pkgA rfl
      (by simp) rfl (by simp)
      (by rw [show foundVerifiedCombos [pkgA] = [] from rfl]; exact List.not_mem_nil _) rfl

/-!
## C7: frame property of `matchDetections`

The pure model mirrors the source's deep copies (lines 24-25), so the
caller's collections are untouched by construction; the observable
content of the claim is that outputs have the same lengths, and that
entry `i` of each output list differs from entry `i` of the input only
in `status`, `matchedPackageId`, and `notes`.
-/

/-- C7: `matchDetections` preserves the number of packages and
detections, every output package agrees with the input package at the
same position on all fields except `status`, and every output detection
agrees with the input detection at the same position on all fields
except `status`, `matchedPackageId`, and `notes` (`DetFrame`). -/
theorem matchDetections_frame (pkgs : List Package) (dets : List Detection) :
    (matchDetections pkgs dets).updatedPackages.length = pkgs.length ∧
    (matchDetections pkgs dets).updatedDetections.length = dets.length ∧
    (∀ (i : Nat) (q : Package), pkgs[i]? = some q →
      ∃ (q' : Package), (matchDetections pkgs dets).updatedPackages[i]? = some q' ∧
        q'.id = q.id ∧ q'.apartment = q.apartment ∧ q'.trackingLast4 = q.trackingLast4 ∧
        q'.carrier = q.carrier ∧ q'.recipient = q.recipient ∧
        q'.fullTracking = q.fullTracking ∧ q'.importedAt = q.importedAt) ∧
    (∀ (i : Nat) (e : Detection), dets[i]? = some e →
      ∃ (e' : Detection), (matchDetections pkgs dets).updatedDetections[i]? = some e' ∧
        DetFrame e e') := by
  refine ⟨matchAux_pkgs_length _ _, matchAux_dets_length _ _, ?_, ?_⟩
  · intro i q hq
    obtain ⟨q', hq', he⟩ := matchAux_pkgs_evolve
      { pkgs := pkgs, combos := foundVerifiedCombos pkgs } dets i q hq
    refine ⟨q', hq', ?_⟩
    rcases he with h | h <;> subst h <;> exact ⟨rfl, rfl, rfl, rfl, rfl, rfl, rfl⟩
  · intro i e he
    exact matchAux_det_frame { pkgs := pkgs, combos := foundVerifiedCombos pkgs } dets i e he

/-- C7 witness: the frame theorem applied at `([pkgA], [detA])`, index 0. -/
theorem matchDetections_frame_witness :
    ([pkgA][0]? = some pkgA) ∧
    (∃ (q' : Package), (matchDetections [pkgA] [detA]).updatedPackages[0]? = some q' ∧
      q'.id = pkgA.id ∧ q'.apartment = pkgA.apartment ∧ q'.trackingLast4 = pkgA.trackingLast4 ∧
      q'.carrier = pkgA.carrier ∧ q'.recipient = pkgA.recipient ∧
      q'.fullTracking = pkgA.fullTracking ∧ q'.importedAt = pkgA.importedAt) :=
  ⟨rfl, (matchDetections_frame [pkgA] [detA]).2.2.1 0 pkgA rfl⟩

/-! ## C2 machinery: characterizing one step and the claimed set -/

theorem fvc_mem_iff (pkgs : List Package) (k : String) :
    k ∈ foundVerifiedCombos pkgs ↔
      ∃ q, q ∈ pkgs ∧ isFoundOrVerified q = true ∧ comboOfPkg q = k := by
  simp only [foundVerifiedCombos, List.mem_map, List.mem_filter]
  constructor
  · rintro ⟨q, ⟨hq, hfv⟩, hk⟩
    exact ⟨q, hq, hfv, hk⟩
  · rintro ⟨q, hq, hfv, hk⟩
    exact ⟨q, ⟨hq, hfv⟩, hk⟩

theorem claimed_iff (pkgs : List Package) (k : String) :
    claimed pkgs k = true ↔ k ∈ foundVerifiedCombos pkgs := by
  simp [claimed]

theorem noColon_append_inj (xs : List Char) : ∀ (us ys vs : List Char),
    ¬ (':' ∈ xs) → ¬ (':' ∈ us) → xs ++ ':' :: ys = us ++ ':' :: vs → xs = us ∧ ys = vs := by
  induction xs with
  | nil =>
      intro us ys vs hx hu h
      cases us with
      | nil => simpa using h
      | cons u us' =>
          simp only [List.nil_append, List.cons_append, List.cons.injEq] at h
          exact absurd (h.1 ▸ List.mem_cons_self u us') hu
  | cons x xs' ih =>
      intro us ys vs hx hu h
      cases us with
      | nil =>
          simp only [List.cons_append, List.nil_append, List.cons.injEq] at h
          exact absurd (h.1 ▸ List.mem_cons_self x xs') hx
      | cons u us' =>
          simp only [List.cons_append, List.cons.injEq] at h
          obtain ⟨h1, h2⟩ := h
          have hx' : ¬ (':' ∈ xs') := fun hc => hx (List.mem_cons_of_mem x hc)
          have hu' : ¬ (':' ∈ us') := fun hc => hu (List.mem_cons_of_mem u hc)
          obtain ⟨e1, e2⟩ := ih us' ys vs hx' hu' h2
          exact ⟨by rw [h1, e1], e2⟩

theorem comboKey_inj (a l a2 l2 : String)
    (ha : ¬ (':' ∈ a.data)) (ha2 : ¬ (':' ∈ a2.data))
    (h : comboKey a l = comboKey a2 l2) : a = a2 ∧ l = l2 := by
  have hd : a.data ++ ':' :: l.data = a2.data ++ ':' :: l2.data := by
    have := congrArg String.data h
    simpa [comboKey, String.data_append] using this
  obtain ⟨h1, h2⟩ := noColon_append_inj a.data a2.data l.data l2.data ha ha2 hd
  exact ⟨String.ext h1, String.ext h2⟩

/-- Exhaustive characterization of one matching step, with the branch
conditions of the source made explicit. -/
theorem matchStep_cases (st : MatchState) (e : Detection) :
    ((strFalsy e.parsedApartment || strFalsy e.parsedLast4) = true ∧
      matchStep st e = (st, { e with status := DetectionStatus.unreadable })) ∨
    (NonFalsy e ∧ st.combos.contains (keyOf e) = true ∧
      matchStep st e = (st, { e with status := DetectionStatus.duplicate })) ∨
    (NonFalsy e ∧ st.combos.contains (keyOf e) = false ∧
      (∃ p, st.pkgs.filter (pendingMatch (paOf e) (plOf e)) = [p] ∧
        matchStep st e =
          ({ pkgs := st.pkgs.map (fun q =>
                if pendingMatch (paOf e) (plOf e) q then
                  { q with status := PackageStatus.found } else q),
             combos := st.combos ++ [keyOf e] },
           { e with status := DetectionStatus.matched, matchedPackageId := some p.id }))) ∨
    (NonFalsy e ∧ st.combos.contains (keyOf e) = false ∧
      st.pkgs.filter (pendingMatch (paOf e) (plOf e)) = [] ∧
      matchStep st e =
        (st, { e with status := DetectionStatus.orphan,
                      notes := appendNote e.notes orphanNote })) ∨
    (NonFalsy e ∧ st.combos.contains (keyOf e) = false ∧
      2 ≤ (st.pkgs.filter (pendingMatch (paOf e) (plOf e))).length ∧
      matchStep st e =
        (st, { e with status := DetectionStatus.ambiguous,
                      notes := appendNote e.notes ambiguousNote })) := by
  by_cases h1 : (strFalsy e.parsedApartment || strFalsy e.parsedLast4) = true
  · refine Or.inl ⟨h1, ?_⟩
    unfold matchStep
    rw [if_pos h1]
  · have h1' : (strFalsy e.parsedApartment || strFalsy e.parsedLast4) = false := by
      simpa using h1
    by_cases h2 : st.combos.contains
        (comboKey (e.parsedApartment.getD "") (e.parsedLast4.getD "")) = true
    · refine Or.inr (Or.inl ⟨h1', h2, ?_⟩)
      unfold matchStep
      rw [if_neg h1]
      dsimp only
      rw [if_pos h2]
    · have h2' : st.combos.contains
          (comboKey (e.parsedApartment.getD "") (e.parsedLast4.getD "")) = false := by
        simpa using h2
      rcases hf : st.pkgs.filter
          (pendingMatch (e.parsedApartment.getD "") (e.parsedLast4.getD "")) with
        _ | ⟨p, rest⟩
      · refine Or.inr (Or.inr (Or.inr (Or.inl ⟨h1', h2', hf, ?_⟩)))
        unfold matchStep
        rw [if_neg h1]
        dsimp only
        rw [if_neg h2, hf]
      · rcases rest with _ | ⟨q, rest2⟩
        · refine Or.inr (Or.inr (Or.inl ⟨h1', h2', ⟨p, hf, ?_⟩⟩))
          unfold matchStep
          rw [if_neg h1]
          dsimp only
          rw [if_neg h2, hf]
          rfl
        · refine Or.inr (Or.inr (Or.inr (Or.inr ⟨h1', h2', ?_, ?_⟩)))
          · show 2 ≤ (st.pkgs.filter
              (pendingMatch (e.parsedApartment.getD "") (e.parsedLast4.getD ""))).length
            rw [hf]
            simp
          · unfold matchStep
            rw [if_neg h1]
            dsimp only
            rw [if_neg h2, hf]

theorem pendingMatch_iff (a l : String) (q : Package) :
    pendingMatch a l q = true ↔
      (q.apartment = a ∧ q.trackingLast4 = l ∧ q.status = PackageStatus.pending) := by
  simp [pendingMatch, and_assoc]

theorem pendingMatch_found_false (a l : String) (q : Package) :
    pendingMatch a l { q with status := PackageStatus.found } = false := by
  simp [pendingMatch]

theorem pendingMatch_fv_false (a l : String) (q : Package)
    (h : isFoundOrVerified q = true) : pendingMatch a l q = false := by
  simp only [isFoundOrVerified, Bool.or_eq_true, beq_iff_eq] at h
  rcases h with h | h <;> simp [pendingMatch, h]

theorem isFoundOrVerified_found (q : Package) :
    isFoundOrVerified { q with status := PackageStatus.found } = true := by
  simp [isFoundOrVerified]

theorem mem_map_found_iff (pkgs : List Package) (a2 l2 : String) (q' : Package) :
    (q' ∈ pkgs.map (fun q =>
        if pendingMatch a2 l2 q then { q with status := PackageStatus.found } else q)) ↔
      ∃ q, q ∈ pkgs ∧
        ((pendingMatch a2 l2 q = false ∧ q' = q) ∨
         (pendingMatch a2 l2 q = true ∧ q' = { q with status := PackageStatus.found })) := by
  simp only [List.mem_map]
  constructor
  · rintro ⟨q, hq, he⟩
    by_cases hp : pendingMatch a2 l2 q = true
    · exact ⟨q, hq, Or.inr ⟨hp, by rw [← he, if_pos hp]⟩⟩
    · exact ⟨q, hq, Or.inl ⟨by simpa using hp, by rw [← he, if_neg hp]⟩⟩
  · rintro ⟨q, hq, (⟨hp, he⟩ | ⟨hp, he⟩)⟩
    · refine ⟨q, hq, ?_⟩
      rw [if_neg (by simp [hp])]
      exact he.symm
    · refine ⟨q, hq, ?_⟩
      rw [if_pos hp]
      exact he.symm

theorem claimed_map_found (pkgs : List Package) (a2 l2 : String) (p : Package)
    (hf : pkgs.filter (pendingMatch a2 l2) = [p]) (k : String) :
    claimed (pkgs.map (fun q =>
        if pendingMatch a2 l2 q then { q with status := PackageStatus.found } else q)) k = true ↔
      (claimed pkgs k = true ∨ k = comboKey a2 l2) := by
  have hp_filter : p ∈ pkgs.filter (pendingMatch a2 l2) := by
    rw [hf]; exact List.mem_singleton_self p
  have hp_mem : p ∈ pkgs := List.mem_of_mem_filter hp_filter
  have hp_pred : pendingMatch a2 l2 p = true := List.of_mem_filter hp_filter
  rw [claimed_iff, claimed_iff, fvc_mem_iff, fvc_mem_iff]
  constructor
  · rintro ⟨q', hq', hfv, hk⟩
    obtain ⟨q, hq, (⟨hp, he⟩ | ⟨hp, he⟩)⟩ := (mem_map_found_iff pkgs a2 l2 q').1 hq'
    · rw [he] at hfv hk
      exact Or.inl ⟨q, hq, hfv, hk⟩
    · right
      obtain ⟨e1, e2, _⟩ := (pendingMatch_iff a2 l2 q).1 hp
      rw [he] at hk
      rw [← hk]
      simp [comboOfPkg, comboKey, e1, e2]
  · rintro (⟨q, hq, hfv, hk⟩ | rfl)
    · refine ⟨q, ?_, hfv, hk⟩
      exact (mem_map_found_iff pkgs a2 l2 q).2
        ⟨q, hq, Or.inl ⟨pendingMatch_fv_false a2 l2 q hfv, rfl⟩⟩
    · refine ⟨{ p with status := PackageStatus.found }, ?_, isFoundOrVerified_found p, ?_⟩
      · exact (mem_map_found_iff pkgs a2 l2 _).2 ⟨p, hp_mem, Or.inr ⟨hp_pred, rfl⟩⟩
      · obtain ⟨e1, e2, _⟩ := (pendingMatch_iff a2 l2 p).1 hp_pred
        simp [comboOfPkg, comboKey, e1, e2]

theorem filter_map_found_nil (pkgs : List Package) (a l a2 l2 : String)
    (h : pkgs.filter (pendingMatch a l) = []) :
    (pkgs.map (fun q =>
        if pendingMatch a2 l2 q then { q with status := PackageStatus.found } else q)).filter
      (pendingMatch a l) = [] := by
  rw [List.filter_eq_nil_iff] at h ⊢
  intro q' hq'
  obtain ⟨q, hq, (⟨hp, he⟩ | ⟨hp, he⟩)⟩ := (mem_map_found_iff pkgs a2 l2 q').1 hq'
  · rw [he]
    exact h q hq
  · rw [he]
    simp [pendingMatch_found_false]

theorem filter_map_found_ne (pkgs : List Package) (a l a2 l2 : String)
    (hne : ¬ (a2 = a ∧ l2 = l)) :
    (pkgs.map (fun q =>
        if pendingMatch a2 l2 q then { q with status := PackageStatus.found } else q)).filter
      (pendingMatch a l) = pkgs.filter (pendingMatch a l) := by
  induction pkgs with
  | nil => rfl
  | cons q pkgs ih =>
      simp only [List.map_cons, List.filter_cons]
      by_cases hp2 : pendingMatch a2 l2 q = true
      · rw [if_pos hp2]
        have h1 : pendingMatch a l { q with status := PackageStatus.found } = false :=
          pendingMatch_found_false a l q
      
        have h2 : pendingMatch a l q = false := by
          by_contra hc
          have hq1 := (pendingMatch_iff a l q).1 (by simpa using hc)
          have hq2 := (pendingMatch_iff a2 l2 q).1 hp2
          exact hne ⟨by rw [← hq2.1, hq1.1], by rw [← hq2.2.1, hq1.2.1]⟩
        rw [h1, h2]
        simp [ih]
      · rw [if_neg hp2]
        by_cases hp : pendingMatch a l q = true
        · rw [if_pos hp, if_pos hp, ih]
        · rw [if_neg hp, if_neg hp, ih]

/-!
## C2: running `matchDetections` on its own output

The loop invariant (`CombosInv`), the postcondition every output
detection satisfies against the output packages (`SecondRunPost`), and
the classification a second run therefore produces.
-/

theorem contains_iff_mem (l : List String) (k : String) : l.contains k = true ↔ k ∈ l := by
  simp

theorem nonFalsy_spec (d : Detection) (h : NonFalsy d) :
    ∃ a l, d.parsedApartment = some a ∧ a ≠ "" ∧ d.parsedLast4 = some l ∧ l ≠ "" ∧
      paOf d = a ∧ plOf d = l := by
  unfold NonFalsy at h
  rw [Bool.or_eq_false_iff] at h
  obtain ⟨h1, h2⟩ := h
  cases hpa : d.parsedApartment with
  | none => rw [hpa] at h1; simp [strFalsy] at h1
  | some a =>
      cases hpl : d.parsedLast4 with
      | none => rw [hpl] at h2; simp [strFalsy] at h2
      | some l =>
          rw [hpa] at h1
          rw [hpl] at h2
          simp only [strFalsy, beq_eq_false_iff_ne, ne_eq] at h1 h2
          exact ⟨a, l, rfl, h1, rfl, h2, by simp [paOf, hpa], by simp [plOf, hpl]⟩

theorem combosInv_matched (pkgs : List Package) (combos : List String)
    (a2 l2 : String) (p : Package)
    (hf : pkgs.filter (pendingMatch a2 l2) = [p])
    (hinv : ∀ k, combos.contains k = claimed pkgs k) :
    ∀ k, (combos ++ [comboKey a2 l2]).contains k =
      claimed (pkgs.map (fun q =>
        if pendingMatch a2 l2 q then { q with status := PackageStatus.found } else q)) k := by
  intro k
  rw [Bool.eq_iff_iff, contains_iff_mem, List.mem_append, List.mem_singleton,
      claimed_map_found pkgs a2 l2 p hf k, ← hinv k, contains_iff_mem]

theorem combosInv_step (st : MatchState) (e : Detection) (hinv : CombosInv st) :
    CombosInv (matchStep st e).1 := by
  rcases matchStep_cases st e with
    ⟨_, heq⟩ | ⟨_, _, heq⟩ | ⟨hnf, hnc, p, hf, heq⟩ | ⟨_, _, _, heq⟩ | ⟨_, _, _, heq⟩
  · rw [heq]; exact hinv
  · rw [heq]; exact hinv
  · rw [heq]
    exact combosInv_matched st.pkgs st.combos (paOf e) (plOf e) p hf hinv
  · rw [heq]; exact hinv
  · rw [heq]; exact hinv

theorem combosInv_fold (st : MatchState) (ds : List Detection) (hinv : CombosInv st) :
    CombosInv (matchDetectionsAux st ds).1 := by
  induction ds generalizing st with
  | nil => exact hinv
  | cons e ds ih => exact ih _ (combosInv_step st e hinv)

theorem post_preserve_matched (pkgs : List Package) (a2 l2 : String) (p : Package)
    (hf : pkgs.filter (pendingMatch a2 l2) = [p])
    (hcol2 : ¬ (':' ∈ a2.data))
    (d : Detection)
    (hcold : ∀ s, d.parsedApartment = some s → ¬ (':' ∈ s.data))
    (hpost : SecondRunPost pkgs d) :
    SecondRunPost (pkgs.map (fun q =>
      if pendingMatch a2 l2 q then { q with status := PackageStatus.found } else q)) d := by
  rcases hpost with ⟨h1, h2⟩ | ⟨h1, h2, h3⟩ | ⟨h1, h2, h3, h4⟩ | ⟨h1, h2, h3, h4⟩
  · exact Or.inl ⟨h1, h2⟩
  · exact Or.inr (Or.inl ⟨h1, h2, (claimed_map_found pkgs a2 l2 p hf _).2 (Or.inl h3)⟩)
  · obtain ⟨a, l, hpa, hane, hpl, hlne, hpaof, hplof⟩ := nonFalsy_spec d h2
    have hcolpa : ¬ (':' ∈ (paOf d).data) := by rw [hpaof]; exact hcold a hpa
    refine Or.inr (Or.inr (Or.inl ⟨h1, h2, ?_,
      filter_map_found_nil pkgs (paOf d) (plOf d) a2 l2 h4⟩))
    cases hcm : claimed (pkgs.map (fun q =>
        if pendingMatch a2 l2 q then { q with status := PackageStatus.found } else q)) (keyOf d) with
    | false => rfl
    | true =>
        exfalso
        rcases (claimed_map_found pkgs a2 l2 p hf _).1 hcm with hcl | hkey
        · rw [h3] at hcl
          exact Bool.noConfusion hcl
        · have hinj := comboKey_inj (paOf d) (plOf d) a2 l2 hcolpa hcol2 hkey
          rw [← hinj.1, ← hinj.2] at hf
          rw [h4] at hf
          exact List.noConfusion hf
  · obtain ⟨a, l, hpa, hane, hpl, hlne, hpaof, hplof⟩ := nonFalsy_spec d h2
    have hcolpa : ¬ (':' ∈ (paOf d).data) := by rw [hpaof]; exact hcold a hpa
    by_cases hpair : a2 = paOf d ∧ l2 = plOf d
    · exfalso
      rw [hpair.1, hpair.2] at hf
      rw [hf] at h4
      simp at h4
    · refine Or.inr (Or.inr (Or.inr ⟨h1, h2, ?_, ?_⟩))
      · cases hcm : claimed (pkgs.map (fun q =>
            if pendingMatch a2 l2 q then { q with status := PackageStatus.found } else q)) (keyOf d) with
        | false => rfl
        | true =>
            exfalso
            rcases (claimed_map_found pkgs a2 l2 p hf _).1 hcm with hcl | hkey
            · rw [h3] at hcl
              exact Bool.noConfusion hcl
            · have hinj := comboKey_inj (paOf d) (plOf d) a2 l2 hcolpa hcol2 hkey
              exact hpair ⟨hinj.1.symm, hinj.2.symm⟩
      · rw [filter_map_found_ne pkgs (paOf d) (plOf d) a2 l2 hpair]
        exact h4

theorem post_preserve_step (st : MatchState) (e d : Detection)
    (hcole : ∀ s, e.parsedApartment = some s → ¬ (':' ∈ s.data))
    (hcold : ∀ s, d.parsedApartment = some s → ¬ (':' ∈ s.data))
    (hpost : SecondRunPost st.pkgs d) :
    SecondRunPost (matchStep st e).1.pkgs d := by
  rcases matchStep_cases st e with
    ⟨_, heq⟩ | ⟨_, _, heq⟩ | ⟨hnf, hnc, p, hf, heq⟩ | ⟨_, _, _, heq⟩ | ⟨_, _, _, heq⟩
  · rw [heq]; exact hpost
  · rw [heq]; exact hpost
  · rw [heq]
    obtain ⟨a2, l2, hpa2, _, hpl2, _, hpaof2, hplof2⟩ := nonFalsy_spec e hnf
    have hcol2 : ¬ (':' ∈ (paOf e).data) := by rw [hpaof2]; exact hcole a2 hpa2
    exact post_preserve_matched st.pkgs (paOf e) (plOf e) p hf hcol2 d hcold hpost
  · rw [heq]; exact hpost
  · rw [heq]; exact hpost

theorem post_preserve_fold (st : MatchState) (ds : List Detection) (d : Detection)
    (hcol : DetsColonFree ds)
    (hcold : ∀ s, d.parsedApartment = some s → ¬ (':' ∈ s.data))
    (hpost : SecondRunPost st.pkgs d) :
    SecondRunPost (matchDetectionsAux st ds).1.pkgs d := by
  induction ds generalizing st with
  | nil => exact hpost
  | cons e ds ih =>
      have hcole : ∀ s, e.parsedApartment = some s → ¬ (':' ∈ s.data) :=
        hcol e (List.mem_cons_self e ds)
      have hcolds : DetsColonFree ds := fun x hx => hcol x (List.mem_cons_of_mem e hx)
      exact ih (matchStep st e).1 hcolds (post_preserve_step st e d hcole hcold hpost)

theorem matchStep_post (st : MatchState) (e : Detection) (hinv : CombosInv st) :
    SecondRunPost (matchStep st e).1.pkgs (matchStep st e).2 := by
  rcases matchStep_cases st e with
    ⟨hfl, heq⟩ | ⟨hnf, hc, heq⟩ | ⟨hnf, hc, p, hf, heq⟩ | ⟨hnf, hc, hfil, heq⟩ |
    ⟨hnf, hc, hfil, heq⟩
  · rw [heq]
    exact Or.inl ⟨rfl, hfl⟩
  · rw [heq]
    exact Or.inr (Or.inl ⟨Or.inr rfl, hnf, (hinv (keyOf e)).symm.trans hc⟩)
  · rw [heq]
    refine Or.inr (Or.inl ⟨Or.inl rfl, hnf, ?_⟩)
    exact (claimed_map_found st.pkgs (paOf e) (plOf e) p hf _).2 (Or.inr rfl)
  · rw [heq]
    refine Or.inr (Or.inr (Or.inl ⟨rfl, hnf, ?_, hfil⟩))
    exact (hinv (keyOf e)).symm.trans hc
  · rw [heq]
    refine Or.inr (Or.inr (Or.inr ⟨rfl, hnf, ?_, hfil⟩))
    exact (hinv (keyOf e)).symm.trans hc

theorem matchAux_post (st : MatchState) (ds : List Detection)
    (hinv : CombosInv st) (hcol : DetsColonFree ds) :
    ∀ (i : Nat) (d' : Detection), (matchDetectionsAux st ds).2[i]? = some d' →
      SecondRunPost (matchDetectionsAux st ds).1.pkgs d' := by
  induction ds generalizing st with
  | nil => intro i d' h; simp [matchDetectionsAux] at h
  | cons e ds ih =>
      intro i d' h
      have hcole : ∀ s, e.parsedApartment = some s → ¬ (':' ∈ s.data) :=
        hcol e (List.mem_cons_self e ds)
      have hcolds : DetsColonFree ds := fun x hx => hcol x (List.mem_cons_of_mem e hx)
      rw [matchAux_cons] at h
      rw [matchAux_cons]
      cases i with
      | zero =>
          simp only [List.getElem?_cons_zero, Option.some.injEq] at h
          subst h
          have hframe := matchStep_det_frame st e
          have hcold : ∀ s, (matchStep st e).2.parsedApartment = some s → ¬ (':' ∈ s.data) := by
            intro s hs
            rw [hframe.2.2.2.2.1] at hs
            exact hcole s hs
          exact post_preserve_fold (matchStep st e).1 ds _ hcolds hcold (matchStep_post st e hinv)
      | succ i =>
          simp only [List.getElem?_cons_succ] at h
          exact ih (matchStep st e).1 (combosInv_step st e hinv) hcolds i d' h

theorem matchStep_second (P : List Package) (C : List String)
    (hC : ∀ k, C.contains k = claimed P k) (d : Detection)
    (hpd : SecondRunPost P d) :
    (matchStep { pkgs := P, combos := C } d).1 = { pkgs := P, combos := C } ∧
    (matchStep { pkgs := P, combos := C } d).2.status =
      (if d.status = DetectionStatus.matched then DetectionStatus.duplicate else d.status) := by
  have hkc : C.contains (keyOf d) = claimed P (keyOf d) := hC (keyOf d)
  rcases matchStep_cases { pkgs := P, combos := C } d with
    ⟨hfl, heq⟩ | ⟨hnf, hc, heq⟩ | ⟨hnf, hc, p, hf, heq⟩ | ⟨hnf, hc, hfil, heq⟩ |
    ⟨hnf, hc, hfil, heq⟩
  · rcases hpd with ⟨h1, _⟩ | ⟨_, h2, _⟩ | ⟨_, h2, _, _⟩ | ⟨_, h2, _, _⟩
    · refine ⟨by rw [heq], ?_⟩
      rw [heq, h1]
      simp
    all_goals exact absurd (h2.symm.trans hfl) (by simp)
  · have hcC : C.contains (keyOf d) = true := hc
    rcases hpd with ⟨_, h2⟩ | ⟨h1, _, _⟩ | ⟨_, _, h3, _⟩ | ⟨_, _, h3, _⟩
    · exact absurd (hnf.symm.trans h2) (by simp)
    · refine ⟨by rw [heq], ?_⟩
      rw [heq]
      rcases h1 with h1 | h1 <;> rw [h1] <;> simp
    · have : claimed P (keyOf d) = true := hkc.symm.trans hcC
      rw [h3] at this
      exact absurd this (by simp)
    · have : claimed P (keyOf d) = true := hkc.symm.trans hcC
      rw [h3] at this
      exact absurd this (by simp)
  · have hcC : C.contains (keyOf d) = false := hc
    have hfP : P.filter (pendingMatch (paOf d) (plOf d)) = [p] := hf
    rcases hpd with ⟨_, h2⟩ | ⟨_, _, h3⟩ | ⟨_, _, _, h4⟩ | ⟨_, _, _, h4⟩
    · exact absurd (hnf.symm.trans h2) (by simp)
    · have : claimed P (keyOf d) = false := hkc.symm.trans hcC
      rw [h3] at this
      exact absurd this (by simp)
    · rw [h4] at hfP
      exact absurd hfP (by simp)
    · rw [hfP] at h4
      simp at h4
  · have hfilP : P.filter (pendingMatch (paOf d) (plOf d)) = [] := hfil
    rcases hpd with ⟨_, h2⟩ | ⟨_, _, h3⟩ | ⟨h1, _, _, _⟩ | ⟨_, _, _, h4⟩
    · exact absurd (hnf.symm.trans h2) (by simp)
    · have : claimed P (keyOf d) = false := hkc.symm.trans hc
      rw [h3] at this
      exact absurd this (by simp)
    · refine ⟨by rw [heq], ?_⟩
      rw [heq, h1]
      simp
    · rw [hfilP] at h4
      simp at h4
  · have hfilP : 2 ≤ (P.filter (pendingMatch (paOf d) (plOf d))).length := hfil
    rcases hpd with ⟨_, h2⟩ | ⟨_, _, h3⟩ | ⟨_, _, _, h4⟩ | ⟨h1, _, _, _⟩
    · exact absurd (hnf.symm.trans h2) (by simp)
    · have : claimed P (keyOf d) = false := hkc.symm.trans hc
      rw [h3] at this
      exact absurd this (by simp)
    · rw [h4] at hfilP
      simp at hfilP
    · refine ⟨by rw [heq], ?_⟩
      rw [heq, h1]
      simp

theorem matchAux_second (P : List Package) (C : List String)
    (hC : ∀ k, C.contains k = claimed P k) (ds : List Detection)
    (hpost : ∀ d ∈ ds, SecondRunPost P d) :
    (matchDetectionsAux { pkgs := P, combos := C } ds).1 = { pkgs := P, combos := C } ∧
    ∀ (i : Nat) (d1 : Detection), ds[i]? = some d1 →
      ∃ (d2 : Detection),
        (matchDetectionsAux { pkgs := P, combos := C } ds).2[i]? = some d2 ∧
        d2.status = (if d1.status = DetectionStatus.matched then DetectionStatus.duplicate
                     else d1.status) := by
  induction ds with
  | nil => exact ⟨rfl, fun i d1 h => by simp at h⟩
  | cons d ds ih =>
      have hpd := hpost d (List.mem_cons_self d ds)
      have hpds : ∀ x ∈ ds, SecondRunPost P x := fun x hx => hpost x (List.mem_cons_of_mem d hx)
      obtain ⟨hst, hstat⟩ := matchStep_second P C hC d hpd
      obtain ⟨ih1, ih2⟩ := ih hpds
      constructor
      · rw [matchAux_cons, hst]
        exact ih1
      · intro i d1 h
        rw [matchAux_cons]
        cases i with
        | zero =>
            simp only [List.getElem?_cons_zero, Option.some.injEq] at h
            subst h
            exact ⟨(matchStep { pkgs := P, combos := C } d).2, by simp, hstat⟩
        | succ i =>
            simp only [List.getElem?_cons_succ] at h
            obtain ⟨d2, hd2, hs2⟩ := ih2 i d1 h
            refine ⟨d2, ?_, hs2⟩
            show ((matchStep { pkgs := P, combos := C } d).2 ::
              (matchDetectionsAux (matchStep { pkgs := P, combos := C } d).1 ds).2)[i + 1]? =
                some d2
            rw [List.getElem?_cons_succ, hst]
            exact hd2

/-- C2 (amended: a second run leaves the packages unchanged — every
`found` package stays `found` — and keeps every `duplicate`, `orphan`,
`unreadable` and `ambiguous` detection at its status, but a `matched`
detection is reclassified as `duplicate` because its combo is now
claimed by the package it matched; parsed apartment codes are assumed
not to contain the `':'` key separator). -/
theorem matchDetections_second_run (pkgs : List Package) (dets : List Detection)
    (hcol : ∀ e ∈ dets, ∀ s, e.parsedApartment = some s → ¬ (':' ∈ s.data)) :
    (matchDetections (matchDetections pkgs dets).updatedPackages
        (matchDetections pkgs dets).updatedDetections).updatedPackages =
      (matchDetections pkgs dets).updatedPackages ∧
    (matchDetections (matchDetections pkgs dets).updatedPackages
        (matchDetections pkgs dets).updatedDetections).updatedDetections.length =
      (matchDetections pkgs dets).updatedDetections.length ∧
    ∀ (i : Nat) (d1 : Detection),
      (matchDetections pkgs dets).updatedDetections[i]? = some d1 →
      ∃ (d2 : Detection),
        (matchDetections (matchDetections pkgs dets).updatedPackages
            (matchDetections pkgs dets).updatedDetections).updatedDetections[i]? = some d2 ∧
        d2.status = (if d1.status = DetectionStatus.matched then DetectionStatus.duplicate
                     else d1.status) := by
  have hinv0 : CombosInv { pkgs := pkgs, combos := foundVerifiedCombos pkgs } := fun _ => rfl
  have hpost : ∀ d ∈ (matchDetections pkgs dets).updatedDetections,
      SecondRunPost (matchDetections pkgs dets).updatedPackages d := by
    intro d hd
    obtain ⟨i, hi⟩ := List.mem_iff_getElem?.1 hd
    exact matchAux_post { pkgs := pkgs, combos := foundVerifiedCombos pkgs } dets
      hinv0 hcol i d hi
  have hC : ∀ k,
      (foundVerifiedCombos (matchDetections pkgs dets).updatedPackages).contains k =
        claimed (matchDetections pkgs dets).updatedPackages k := fun _ => rfl
  obtain ⟨hst, hdet⟩ := matchAux_second (matchDetections pkgs dets).updatedPackages
    (foundVerifiedCombos (matchDetections pkgs dets).updatedPackages) hC
    (matchDetections pkgs dets).updatedDetections hpost
  refine ⟨?_, matchAux_dets_length _ _, hdet⟩
  show (matchDetectionsAux
    { pkgs := (matchDetections pkgs dets).updatedPackages,
      combos := foundVerifiedCombos (matchDetections pkgs dets).updatedPackages }
    (matchDetections pkgs dets).updatedDetections).1.pkgs =
      (matchDetections pkgs dets).updatedPackages
  rw [hst]

/-- C2 counterexample to the claim as frozen: for the single pending
package `pkgA` and detection `detA`, the first call classifies the
detection `matched`, and feeding the output back reclassifies the same
detection as `duplicate` — a status change, though the package list is
unchanged. -/
theorem matchDetections_not_idempotent_cex :
    ((matchDetections [pkgA] [detA]).updatedDetections.headD detA).status =
      DetectionStatus.matched ∧
    ((matchDetections (matchDetections [pkgA] [detA]).updatedPackages
        (matchDetections [pkgA] [detA]).updatedDetections).updatedDetections.headD
          detA).status = DetectionStatus.duplicate ∧
    (matchDetections (matchDetections [pkgA] [detA]).updatedPackages
        (matchDetections [pkgA] [detA]).updatedDetections).updatedPackages =
      (matchDetections [pkgA] [detA]).updatedPackages := by
  refine ⟨rfl, rfl, rfl⟩

/-- C2 witness: the amended theorem applied at `([pkgA], [detA])`. -/
theorem matchDetections_second_run_witness :
    (∀ e ∈ [detA], ∀ s, e.parsedApartment = some s → ¬ (':' ∈ s.data)) ∧
    ((matchDetections (matchDetections [pkgA] [detA]).updatedPackages
        (matchDetections [pkgA] [detA]).updatedDetections).updatedPackages =
      (matchDetections [pkgA] [detA]).updatedPackages ∧
    (matchDetections (matchDetections [pkgA] [detA]).updatedPackages
        (matchDetections [pkgA] [detA]).updatedDetections).updatedDetections.length =
      (matchDetections [pkgA] [detA]).updatedDetections.length ∧
    ∀ (i : Nat) (d1 : Detection),
      (matchDetections [pkgA] [detA]).updatedDetections[i]? = some d1 →
      ∃ (d2 : Detection),
        (matchDetections (matchDetections [pkgA] [detA]).updatedPackages
            (matchDetections [pkgA] [detA]).updatedDetections).updatedDetections[i]? =
          some d2 ∧
        d2.status = (if d1.status = DetectionStatus.matched then DetectionStatus.duplicate
                     else d1.status)) := by
  have hcol : ∀ e ∈ [detA], ∀ s, e.parsedApartment = some s → ¬ (':' ∈ s.data) := by
    intro e he s hs
    rw [List.mem_singleton] at he
    subst he
    simp only [show detA.parsedApartment = some "A01B" from rfl, Option.some.injEq] at hs
    subst hs
    decide
  exact ⟨hcol, matchDetections_second_run [pkgA] [detA] hcol⟩

/-!
## Parser: step lemmas for the line loop
-/

theorem parseLines_blank (n : Nat) (seen : List String) (line : String) (rest : List String)
    (hb : jsTrim line = "") :
    parseLines n seen (line :: rest) = parseLines (n + 1) seen rest := by
  conv_lhs => unfold parseLines
  dsimp only
  rw [if_pos hb]

theorem parseLines_error (n : Nat) (seen : List String) (line : String) (rest : List String)
    (hb : ¬ jsTrim line = "") (r : String) (hc : parseLineCore (jsTrim line) = Except.error r) :
    parseLines n seen (line :: rest) =
      { packages := (parseLines (n + 1) seen rest).packages,
        errors := { lineNumber := n, line := jsTrim line, reason := r } :: (parseLines (n + 1) seen rest).errors } := by
  conv_lhs => unfold parseLines
  dsimp only
  rw [if_neg hb, hc]

theorem parseLines_dup (n : Nat) (seen : List String) (line : String) (rest : List String)
    (hb : ¬ jsTrim line = "") (f : ParseFields)
    (hc : parseLineCore (jsTrim line) = Except.ok f)
    (hd : seen.contains (comboKey f.apartment f.trackingLast4) = true) :
    parseLines n seen (line :: rest) =
      { packages := (parseLines (n + 1) seen rest).packages,
        errors := { lineNumber := n, line := jsTrim line, reason := duplicateReason f.apartment f.trackingLast4 } :: (parseLines (n + 1) seen rest).errors } := by
  conv_lhs => unfold parseLines
  dsimp only
  rw [if_neg hb, hc]
  dsimp only
  rw [if_pos hd]

theorem parseLines_pkg (n : Nat) (seen : List String) (line : String) (rest : List String)
    (hb : ¬ jsTrim line = "") (f : ParseFields)
    (hc : parseLineCore (jsTrim line) = Except.ok f)
    (hd : ¬ seen.contains (comboKey f.apartment f.trackingLast4) = true) :
    parseLines n seen (line :: rest) =
      { packages := mkPackage n f :: (parseLines (n + 1) (comboKey f.apartment f.trackingLast4 :: seen) rest).packages,
        errors := (parseLines (n + 1) (comboKey f.apartment f.trackingLast4 :: seen) rest).errors } := by
  conv_lhs => unfold parseLines
  dsimp only
  rw [if_neg hb, hc]
  dsimp only
  rw [if_neg hd]

theorem parseLines_total (lines : List String) : ∀ (n : Nat) (seen : List String),
    (parseLines n seen lines).packages.length + (parseLines n seen lines).errors.length =
      (lines.filter (fun l => jsTrim l != "")).length ∧
    ∀ e ∈ (parseLines n seen lines).errors,
      ∃ (i : Nat) (l : String), e.lineNumber = n + i ∧ lines[i]? = some l ∧
        e.line = jsTrim l ∧ ¬ (jsTrim l = "") := by
  induction lines with
  | nil =>
      intro n seen
      exact ⟨rfl, fun e he => by simp [parseLines] at he⟩
  | cons line rest ih =>
      intro n seen
      by_cases hb : jsTrim line = ""
      · rw [parseLines_blank n seen line rest hb]
        obtain ⟨ihlen, iherr⟩ := ih (n + 1) seen
        have hf : (line :: rest).filter (fun l => jsTrim l != "") =
            rest.filter (fun l => jsTrim l != "") := by
          rw [List.filter_cons]
          simp [hb]
        refine ⟨by rw [hf]; exact ihlen, ?_⟩
        intro e he
        obtain ⟨i, l, h1, h2, h3, h4⟩ := iherr e he
        exact ⟨i + 1, l, by omega, by simpa using h2, h3, h4⟩
      · have hf : (line :: rest).filter (fun l => jsTrim l != "") =
            line :: rest.filter (fun l => jsTrim l != "") := by
          rw [List.filter_cons]
          simp [hb]
        have herrshift : ∀ (seen' : List String) (e : ParsingError),
            e ∈ (parseLines (n + 1) seen' rest).errors →
            ∃ (i : Nat) (l : String), e.lineNumber = n + i ∧ (line :: rest)[i]? = some l ∧
              e.line = jsTrim l ∧ ¬ (jsTrim l = "") := by
          intro seen' e he
          obtain ⟨i, l, h1, h2, h3, h4⟩ := (ih (n + 1) seen').2 e he
          exact ⟨i + 1, l, by omega, by simpa using h2, h3, h4⟩
        rcases hc : parseLineCore (jsTrim line) with r | f
        · rw [parseLines_error n seen line rest hb r hc]
          obtain ⟨ihlen, _⟩ := ih (n + 1) seen
          refine ⟨?_, ?_⟩
          · rw [hf]
            simp only [List.length_cons]
            omega
          · intro e he
            rcases List.mem_cons.1 he with he0 | he'
            · subst he0
              exact ⟨0, line, by simp, by simp, rfl, hb⟩
            · exact herrshift seen e he'
        · by_cases hd : seen.contains (comboKey f.apartment f.trackingLast4) = true
          · rw [parseLines_dup n seen line rest hb f hc hd]
            obtain ⟨ihlen, _⟩ := ih (n + 1) seen
            refine ⟨?_, ?_⟩
            · rw [hf]
              simp only [List.length_cons]
              omega
            · intro e he
              rcases List.mem_cons.1 he with he0 | he'
              · subst he0
                exact ⟨0, line, by simp, by simp, rfl, hb⟩
              · exact herrshift seen e he'
          · rw [parseLines_pkg n seen line rest hb f hc hd]
            obtain ⟨ihlen, _⟩ := ih (n + 1) (comboKey f.apartment f.trackingLast4 :: seen)
            refine ⟨?_, ?_⟩
            · rw [hf]
              simp only [List.length_cons]
              omega
            · intro e he
              exact herrshift (comboKey f.apartment f.trackingLast4 :: seen) e he

/-! char-class lemmas for the case-insensitive apartment normalization -/

theorem isLower_toNat (c : Char) (h : c.isLower = true) : 97 ≤ c.toNat ∧ c.toNat ≤ 122 := by
  simp only [Char.isLower, Bool.and_eq_true, decide_eq_true_eq, ge_iff_le,
    UInt32.le_def, BitVec.le_def] at h
  exact h

theorem isUpper_toNat (c : Char) (h : c.isUpper = true) : 65 ≤ c.toNat ∧ c.toNat ≤ 90 := by
  simp only [Char.isUpper, Bool.and_eq_true, decide_eq_true_eq, ge_iff_le,
    UInt32.le_def, BitVec.le_def] at h
  exact h

theorem isDigit_toNat (c : Char) (h : c.isDigit = true) : 48 ≤ c.toNat ∧ c.toNat ≤ 57 := by
  simp only [Char.isDigit, Bool.and_eq_true, decide_eq_true_eq, ge_iff_le,
    UInt32.le_def, BitVec.le_def] at h
  exact h

theorem Char_ofNat_isUpper (m : Nat) (h1 : 65 ≤ m) (h2 : m ≤ 90) :
    (Char.ofNat m).isUpper = true := by
  have hv : m.isValidChar := Or.inl (by omega)
  simp only [Char.isUpper, Bool.and_eq_true, decide_eq_true_eq, ge_iff_le,
    UInt32.le_def, BitVec.le_def]
  rw [Char.ofNat, dif_pos hv]
  constructor
  · show (65 : UInt32).toNat ≤ m
    exact h1
  · show m ≤ (90 : UInt32).toNat
    exact h2

theorem toUpper_of_not_lower (c : Char) (h : ¬ (97 ≤ c.toNat ∧ c.toNat ≤ 122)) :
    c.toUpper = c := by
  rw [Char.toUpper]
  exact if_neg h

theorem isUpper_toUpper (c : Char) (h : c.isAlpha = true) : (c.toUpper).isUpper = true := by
  rw [Char.isAlpha, Bool.or_eq_true] at h
  rcases h with h | h
  · obtain ⟨h1, h2⟩ := isUpper_toNat c h
    rw [toUpper_of_not_lower c (by omega)]
    exact h
  · obtain ⟨h1, h2⟩ := isLower_toNat c h
    rw [Char.toUpper]
    rw [if_pos (⟨h1, h2⟩ : 97 ≤ c.toNat ∧ c.toNat ≤ 122)]
    exact Char_ofNat_isUpper _ (by omega) (by omega)

theorem toUpper_digit (c : Char) (h : c.isDigit = true) : c.toUpper = c := by
  obtain ⟨h1, h2⟩ := isDigit_toNat c h
  exact toUpper_of_not_lower c (by omega)

theorem isUpper_ne_colon (c : Char) (h : c.isUpper = true) : ¬ (c = ':') := by
  intro hc
  rw [hc] at h
  exact absurd h (by decide)

theorem isDigit_ne_colon (c : Char) (h : c.isDigit = true) : ¬ (c = ':') := by
  intro hc
  rw [hc] at h
  exact absurd h (by decide)

theorem aptShape_colonFree (s : String) (h : aptShape s = true) : ¬ (':' ∈ s.data) := by
  unfold aptShape at h
  split at h
  next c1 c2 c3 c4 heq =>
    simp only [Bool.and_eq_true] at h
    obtain ⟨⟨⟨hu1, hd2⟩, hd3⟩, hu4⟩ := h
    rw [heq]
    intro hc
    simp only [List.mem_cons, List.not_mem_nil, or_false] at hc
    rcases hc with hc | hc | hc | hc
    · rw [← hc] at hu1
      exact absurd hu1 (by decide)
    · rw [← hc] at hd2
      exact absurd hd2 (by decide)
    · rw [← hc] at hd3
      exact absurd hd3 (by decide)
    · rw [← hc] at hu4
      exact absurd hu4 (by decide)
  next => exact absurd h (by simp)

theorem aptMatch_some (cs : List Char) (m : List Char) (h : aptMatch cs = some m) :
    ∃ c1 c2 c3 c4 rest, cs = c1 :: c2 :: c3 :: c4 :: rest ∧
      c1.isAlpha = true ∧ c2.isDigit = true ∧ c3.isDigit = true ∧ c4.isAlpha = true ∧
      m = [c1, c2, c3, c4] := by
  unfold aptMatch at h
  split at h
  next c1 c2 c3 c4 rest =>
      split at h
      next hcond =>
          simp only [Option.some.injEq] at h
          simp only [Bool.and_eq_true] at hcond
          obtain ⟨⟨⟨h1, h2⟩, h3⟩, h4⟩ := hcond
          exact ⟨c1, c2, c3, c4, rest, rfl, h1, h2, h3, h4, h.symm⟩
      next => exact absurd h (by simp)
  next => exact absurd h (by simp)

theorem aptShape_of_match (cs m : List Char) (h : aptMatch cs = some m) :
    aptShape (String.mk (m.map Char.toUpper)) = true := by
  obtain ⟨c1, c2, c3, c4, rest, hcs, h1, h2, h3, h4, hm⟩ := aptMatch_some cs m h
  subst hm
  show (c1.toUpper.isUpper && c2.toUpper.isDigit && c3.toUpper.isDigit &&
    c4.toUpper.isUpper) = true
  rw [toUpper_digit c2 h2, toUpper_digit c3 h3,
      isUpper_toUpper c1 h1, isUpper_toUpper c4 h4]
  simp [h2, h3]

theorem aptMatch_pos (c1 c2 c3 c4 : Char) (rest : List Char)
    (h1 : c1.isAlpha = true) (h2 : c2.isDigit = true)
    (h3 : c3.isDigit = true) (h4 : c4.isAlpha = true) :
    aptMatch (c1 :: c2 :: c3 :: c4 :: rest) = some [c1, c2, c3, c4] := by
  show (if (c1.isAlpha && c2.isDigit && c3.isDigit && c4.isAlpha) = true
    then some [c1, c2, c3, c4] else none) = some [c1, c2, c3, c4]
  rw [if_pos (by simp [h1, h2, h3, h4])]

theorem segmentLine_ok (t : String) (ap ctf : String)
    (h : segmentLine t = Except.ok (ap, ctf)) : aptShape ap = true := by
  unfold segmentLine at h
  dsimp only at h
  split at h
  next idx hfind =>
      split at h
      next => exact absurd h (by simp)
      next apt4 hmatch =>
          split at h
          · exact absurd h (by simp)
          · simp only [Except.ok.injEq, Prod.mk.injEq] at h
            rw [← h.1]
            exact aptShape_of_match _ _ hmatch
  next hfind =>
      split at h
      next htab =>
          split at h
          · exact absurd h (by simp)
          · split at h
            next => exact absurd h (by simp)
            next apt4 hmatch =>
                simp only [Except.ok.injEq, Prod.mk.injEq] at h
                rw [← h.1]
                exact aptShape_of_match _ _ hmatch
      next htab =>
          split at h
          · exact absurd h (by simp)
          · split at h
            next => exact absurd h (by simp)
            next apt4 hmatch =>
                simp only [Except.ok.injEq, Prod.mk.injEq] at h
                rw [← h.1]
                exact aptShape_of_match _ _ hmatch

theorem parseLineCore_apartment (t : String) (f : ParseFields)
    (h : parseLineCore t = Except.ok f) : aptShape f.apartment = true := by
  unfold parseLineCore at h
  split at h
  next => exact absurd h (by simp)
  next seg hseg =>
      dsimp only at h
      split at h
      · exact absurd h (by simp)
      · split at h
        next => exact absurd h (by simp)
        next ftr hftr =>
            simp only [Except.ok.injEq] at h
            rw [← h]
            exact segmentLine_ok t seg.1 seg.2 hseg

theorem parseLines_aptShape (lines : List String) : ∀ (n : Nat) (seen : List String),
    ∀ p ∈ (parseLines n seen lines).packages, aptShape p.apartment = true := by
  induction lines with
  | nil => intro n seen p hp; simp [parseLines] at hp
  | cons line rest ih =>
      intro n seen p hp
      by_cases hb : jsTrim line = ""
      · rw [parseLines_blank n seen line rest hb] at hp
        exact ih (n + 1) seen p hp
      · rcases hc : parseLineCore (jsTrim line) with r | f
        · rw [parseLines_error n seen line rest hb r hc] at hp
          exact ih (n + 1) seen p hp
        · by_cases hd : seen.contains (comboKey f.apartment f.trackingLast4) = true
          · rw [parseLines_dup n seen line rest hb f hc hd] at hp
            exact ih (n + 1) seen p hp
          · rw [parseLines_pkg n seen line rest hb f hc hd] at hp
            rcases List.mem_cons.1 hp with hp0 | hp'
            · rw [hp0]
              exact parseLineCore_apartment _ f hc
            · exact ih (n + 1) _ p hp'

/-- C9: `parse` is total in the embedding; every non-blank line
contributes exactly one package or one error (the counts add up), every
error carries the 1-based line number of an existing non-blank line and
that line's trimmed text, and blank lines are skipped without output.
(The `try/catch` of the source is unreachable in a total model: no step
of the line pipeline can throw.) -/
theorem parse_total (rawText : String) :
    ((parsePackageList rawText).packages.length + (parsePackageList rawText).errors.length =
      ((jsSplitOn "\n" rawText).filter (fun l => jsTrim l != "")).length) ∧
    (∀ e ∈ (parsePackageList rawText).errors,
      1 ≤ e.lineNumber ∧ e.lineNumber ≤ (jsSplitOn "\n" rawText).length ∧
      ∃ l, (jsSplitOn "\n" rawText)[e.lineNumber - 1]? = some l ∧ e.line = jsTrim l ∧
        ¬ (jsTrim l = "")) ∧
    (∀ (n : Nat) (seen : List String) (line : String) (rest : List String),
      jsTrim line = "" → parseLines n seen (line :: rest) = parseLines (n + 1) seen rest) := by
  obtain ⟨hlen, herr⟩ := parseLines_total (jsSplitOn "\n" rawText) 1 []
  refine ⟨hlen, ?_, parseLines_blank⟩
  intro e he
  obtain ⟨i, l, h1, h2, h3, h4⟩ := herr e he
  have hi : i < (jsSplitOn "\n" rawText).length := by
    by_contra hlt
    rw [List.getElem?_eq_none (by omega)] at h2
    exact Option.noConfusion h2
  refine ⟨by omega, by omega, l, ?_, h3, h4⟩
  rw [show e.lineNumber - 1 = i by omega]
  exact h2

/-- C9 witness: `parse_total` applied at the one-line input
`"x - #1"` — whose single non-blank line yields one error — and the
blank-line clause applied at a blank line. -/
theorem parse_total_witness :
    (({ lineNumber := 1, line := "x - #1", reason := apartmentAnchorReason } : ParsingError) ∈
      (parsePackageList "x - #1").errors) ∧
    (1 ≤ ({ lineNumber := 1, line := "x - #1", reason := apartmentAnchorReason } : ParsingError).lineNumber ∧
     ({ lineNumber := 1, line := "x - #1", reason := apartmentAnchorReason } : ParsingError).lineNumber ≤ (jsSplitOn "\n" "x - #1").length ∧
     ∃ l, (jsSplitOn "\n" "x - #1")[({ lineNumber := 1, line := "x - #1", reason := apartmentAnchorReason } : ParsingError).lineNumber - 1]? = some l ∧
       ({ lineNumber := 1, line := "x - #1", reason := apartmentAnchorReason } : ParsingError).line = jsTrim l ∧ ¬ (jsTrim l = "")) ∧
    (jsTrim "" = "" ∧ parseLines 5 [] ("" :: ["A"]) = parseLines 6 [] ["A"]) := by
  have hmem : ({ lineNumber := 1, line := "x - #1", reason := apartmentAnchorReason } : ParsingError) ∈
      (parsePackageList "x - #1").errors := by
    decide
  exact ⟨hmem, (parse_total "x - #1").2.1 _ hmem, rfl,
    (parse_total "x - #1").2.2 5 [] "" ["A"] rfl⟩

/-- C5: every package returned by parse has an apartment of shape letter-digit-digit-letter
with the letters upper case; the apartment pattern is matched case-insensitively at the start
of the field and the matched text is uppercased; and a line lacking the pattern yields a line
error rather than a crash (parseLineCore is total). -/
theorem parse_apartment_pattern :
    (∀ (rawText : String), ∀ p ∈ (parsePackageList rawText).packages,
      aptShape p.apartment = true) ∧
    (∀ (c1 c2 c3 c4 : Char) (rest : List Char),
      c1.isAlpha = true → c2.isDigit = true → c3.isDigit = true → c4.isAlpha = true →
      aptMatch (c1 :: c2 :: c3 :: c4 :: rest) = some [c1, c2, c3, c4] ∧
      aptShape (String.mk ([c1, c2, c3, c4].map Char.toUpper)) = true) ∧
    (∀ (t : String), (∃ f, parseLineCore t = Except.ok f) ∨
      (∃ r, parseLineCore t = Except.error r)) := by
  refine ⟨?_, ?_, ?_⟩
  · intro rawText p hp
    exact parseLines_aptShape (jsSplitOn "\n" rawText) 1 [] p hp
  · intro c1 c2 c3 c4 rest h1 h2 h3 h4
    refine ⟨aptMatch_pos c1 c2 c3 c4 rest h1 h2 h3 h4, ?_⟩
    exact aptShape_of_match (c1 :: c2 :: c3 :: c4 :: rest) _
      (aptMatch_pos c1 c2 c3 c4 rest h1 h2 h3 h4)
  · intro t
    rcases h : parseLineCore t with r | f
    · exact Or.inr ⟨r, rfl⟩
    · exact Or.inl ⟨f, rfl⟩

/-- Witness for C5: the lower-case line "z99z Unit..." parses to a package whose apartment
is the uppercased "Z99Z", and the apartment matcher fires on the concrete lower-case
prefix z99z. -/
theorem parse_apartment_pattern_witness :
    (({ id := "pkg-1", apartment := "Z99Z", trackingLast4 := "K999", carrier := "UPS", recipient := "A B", fullTracking := "TRACK999", importedAt := 0, status := PackageStatus.pending } : Package) ∈
      (parsePackageList "z99z Unit\tX Y\tUPS - #1 - TRACK999 A B").packages ∧
     aptShape ({ id := "pkg-1", apartment := "Z99Z", trackingLast4 := "K999", carrier := "UPS", recipient := "A B", fullTracking := "TRACK999", importedAt := 0, status := PackageStatus.pending } : Package).apartment = true) ∧
    ('z'.isAlpha = true ∧ '9'.isDigit = true ∧
      (aptMatch ('z' :: '9' :: '9' :: 'z' :: []) = some ['z', '9', '9', 'z'] ∧
       aptShape (String.mk (['z', '9', '9', 'z'].map Char.toUpper)) = true)) := by
  have hmem : ({ id := "pkg-1", apartment := "Z99Z", trackingLast4 := "K999", carrier := "UPS", recipient := "A B", fullTracking := "TRACK999", importedAt := 0, status := PackageStatus.pending } : Package) ∈
      (parsePackageList "z99z Unit\tX Y\tUPS - #1 - TRACK999 A B").packages := by
    rw [show (parsePackageList "z99z Unit\tX Y\tUPS - #1 - TRACK999 A B").packages =
      [{ id := "pkg-1", apartment := "Z99Z", trackingLast4 := "K999", carrier := "UPS", recipient := "A B", fullTracking := "TRACK999", importedAt := 0, status := PackageStatus.pending }] from rfl]
    exact List.mem_singleton_self _
  exact ⟨⟨hmem, parse_apartment_pattern.1 _ _ hmem⟩, rfl, rfl,
    parse_apartment_pattern.2.1 'z' '9' '9' 'z' [] rfl rfl rfl rfl⟩

/-- Every package produced by the parse fold has a combo key outside the incoming `seen`
set, and the produced packages have pairwise distinct combo keys. -/
theorem parseLines_combo_inv (lines : List String) : ∀ (n : Nat) (seen : List String),
    (∀ p ∈ (parseLines n seen lines).packages,
      ¬ comboKey p.apartment p.trackingLast4 ∈ seen) ∧
    (parseLines n seen lines).packages.Pairwise
      (fun p q => comboKey p.apartment p.trackingLast4 ≠ comboKey q.apartment q.trackingLast4) := by
  induction lines with
  | nil =>
      intro n seen
      exact ⟨fun p hp => by simp [parseLines] at hp, by simp [parseLines]⟩
  | cons line rest ih =>
      intro n seen
      by_cases hb : jsTrim line = ""
      · rw [parseLines_blank n seen line rest hb]
        exact ih (n + 1) seen
      · rcases hc : parseLineCore (jsTrim line) with r | f
        · rw [parseLines_error n seen line rest hb r hc]
          exact ih (n + 1) seen
        · by_cases hd : seen.contains (comboKey f.apartment f.trackingLast4) = true
          · rw [parseLines_dup n seen line rest hb f hc hd]
            exact ih (n + 1) seen
          · rw [parseLines_pkg n seen line rest hb f hc hd]
            obtain ⟨ihmem, ihpair⟩ := ih (n + 1) (comboKey f.apartment f.trackingLast4 :: seen)
            constructor
            · intro p hp
              rcases List.mem_cons.1 hp with hp0 | hp'
              · rw [hp0]
                intro hmem
                exact hd ((contains_iff_mem seen _).2 hmem)
              · intro hmem
                exact ihmem p hp' (List.mem_cons_of_mem _ hmem)
            · refine List.Pairwise.cons ?_ ihpair
              intro q hq heq
              apply ihmem q hq
              rw [← heq]
              exact List.mem_cons_self _ _

/-- C8: no two packages returned by one parse call share the (apartment, trackingLast4)
pair; a line whose pair is already in the seen set yields a duplicate-entry error and no
package, while an unseen pair yields a package whose key is added ahead of the recursion,
so the first occurrence stands. -/
theorem parse_no_duplicate_combos (rawText : String) :
    ((parsePackageList rawText).packages.Pairwise
      (fun p q => ¬ (p.apartment = q.apartment ∧ p.trackingLast4 = q.trackingLast4))) ∧
    (∀ (n : Nat) (seen : List String) (line : String) (rest : List String) (f : ParseFields),
      ¬ jsTrim line = "" → parseLineCore (jsTrim line) = Except.ok f →
      seen.contains (comboKey f.apartment f.trackingLast4) = true →
      (parseLines n seen (line :: rest)).packages = (parseLines (n + 1) seen rest).packages ∧
      (parseLines n seen (line :: rest)).errors =
        { lineNumber := n, line := jsTrim line,
          reason := duplicateReason f.apartment f.trackingLast4 } :: (parseLines (n + 1) seen rest).errors) ∧
    (∀ (n : Nat) (seen : List String) (line : String) (rest : List String) (f : ParseFields),
      ¬ jsTrim line = "" → parseLineCore (jsTrim line) = Except.ok f →
      ¬ seen.contains (comboKey f.apartment f.trackingLast4) = true →
      (parseLines n seen (line :: rest)).packages =
        mkPackage n f ::
          (parseLines (n + 1) (comboKey f.apartment f.trackingLast4 :: seen) rest).packages) := by
  refine ⟨?_, ?_, ?_⟩
  · refine (parseLines_combo_inv (jsSplitOn "\n" rawText) 1 []).2.imp ?_
    intro p q hne hpq
    exact hne (by rw [hpq.1, hpq.2])
  · intro n seen line rest f hb hc hd
    rw [parseLines_dup n seen line rest hb f hc hd]
    exact ⟨rfl, rfl⟩
  · intro n seen line rest f hb hc hd
    rw [parseLines_pkg n seen line rest hb f hc hd]

/-- Witness for C8: the concrete line "C01K Unit..." is dropped with a duplicate error
when C01K:ABCD is already seen, and becomes package pkg-5 when it is not. -/
theorem parse_no_duplicate_combos_witness :
    (¬ jsTrim "C01K Unit\tE\tUPS - #1 - 1ZABCD M" = "" ∧
     parseLineCore (jsTrim "C01K Unit\tE\tUPS - #1 - 1ZABCD M") =
       Except.ok { apartment := "C01K", carrier := "UPS", fullTracking := "1ZABCD",
                   recipient := "M", trackingLast4 := "ABCD" } ∧
     (["C01K:ABCD"].contains (comboKey "C01K" "ABCD") = true) ∧
     (parseLines 5 ["C01K:ABCD"] ["C01K Unit\tE\tUPS - #1 - 1ZABCD M"]).packages =
       (parseLines 6 ["C01K:ABCD"] []).packages ∧
     (parseLines 5 ["C01K:ABCD"] ["C01K Unit\tE\tUPS - #1 - 1ZABCD M"]).errors =
       { lineNumber := 5, line := jsTrim "C01K Unit\tE\tUPS - #1 - 1ZABCD M",
         reason := duplicateReason "C01K" "ABCD" } :: (parseLines 6 ["C01K:ABCD"] []).errors) ∧
    (¬ ([] : List String).contains (comboKey "C01K" "ABCD") = true ∧
     (parseLines 5 [] ["C01K Unit\tE\tUPS - #1 - 1ZABCD M"]).packages =
       mkPackage 5 { apartment := "C01K", carrier := "UPS", fullTracking := "1ZABCD",
                     recipient := "M", trackingLast4 := "ABCD" } ::
         (parseLines 6 [comboKey "C01K" "ABCD"] []).packages) := by
  refine ⟨⟨by decide, rfl, rfl, ?_⟩, by decide, ?_⟩
  · exact (parse_no_duplicate_combos "").2.1 5 ["C01K:ABCD"]
      "C01K Unit\tE\tUPS - #1 - 1ZABCD M" [] _ (by decide) rfl rfl
  · exact (parse_no_duplicate_combos "").2.2 5 []
      "C01K Unit\tE\tUPS - #1 - 1ZABCD M" [] _ (by decide) rfl (by decide)

/-- Counterexample for C4: the tracking segment "NO TRACKING NUMBER" with no recipient
following does not yield fullTracking set to the matched phrase verbatim with the
placeholder recipient; backtracking hands the word NUMBER to the recipient capture, so
fullTracking is "NO TRACKING" and recipient is "NUMBER". The full manifest line still
produces a package with trackingLast4 "NONE" and no error. -/
theorem parse_no_tracking_cex :
    noTrackingTest "NO TRACKING NUMBER".data = true ∧
    parseTrackingSegment "NO TRACKING NUMBER" =
      Except.ok ("NO TRACKING", "NUMBER", "NONE") ∧
    ¬ parseTrackingSegment "NO TRACKING NUMBER" =
        Except.ok ("NO TRACKING NUMBER", "UNKNOWN", "NONE") ∧
    (parsePackageList "C01A Unit\tACME LLC\tUPS - #123 - NO TRACKING NUMBER").packages =
      [{ id := "pkg-1", apartment := "C01A", trackingLast4 := "NONE", carrier := "UPS",
         recipient := "NUMBER", fullTracking := "NO TRACKING", importedAt := 0,
         status := PackageStatus.pending }] ∧
    (parsePackageList "C01A Unit\tACME LLC\tUPS - #123 - NO TRACKING NUMBER").errors = [] := by
  refine ⟨rfl, rfl, ?_, rfl, rfl⟩
  intro h
  exact absurd (congrArg (fun e => match e with
    | Except.ok (ft, _, _) => ft
    | Except.error _ => "") h) (by decide)

/-- C4 (amended): any tracking segment passing the no-tracking test yields a package-side
result with sentinel trackingLast4 "NONE" and no error; bare "NO TRACKING" / "no trk" give
the trimmed segment as fullTracking and placeholder recipient "UNKNOWN"; a following
recipient is captured after dash separators; the bare phrase "NO TRACKING NUMBER" gives
fullTracking "NO TRACKING" and recipient "NUMBER"; and a full line with a bare no-tracking
token produces exactly the sentinel package and no error. -/
theorem parse_no_tracking :
    (∀ (tar : String), noTrackingTest tar.data = true →
      ∃ ft rc, parseTrackingSegment tar = Except.ok (ft, rc, "NONE")) ∧
    parseTrackingSegment "NO TRACKING" = Except.ok ("NO TRACKING", "UNKNOWN", "NONE") ∧
    parseTrackingSegment "no trk" = Except.ok ("no trk", "UNKNOWN", "NONE") ∧
    parseTrackingSegment "NO TRACKING - Jane" = Except.ok ("NO TRACKING", "Jane", "NONE") ∧
    parseTrackingSegment "NO TRACKING NUMBER" = Except.ok ("NO TRACKING", "NUMBER", "NONE") ∧
    (parsePackageList "B02B Unit\tACME\tUPS - #9 - NO TRACKING").packages =
      [{ id := "pkg-1", apartment := "B02B", trackingLast4 := "NONE", carrier := "UPS",
         recipient := "UNKNOWN", fullTracking := "NO TRACKING", importedAt := 0,
         status := PackageStatus.pending }] ∧
    (parsePackageList "B02B Unit\tACME\tUPS - #9 - NO TRACKING").errors = [] := by
  refine ⟨?_, rfl, rfl, rfl, rfl, rfl, rfl⟩
  intro tar h
  unfold parseTrackingSegment
  rw [if_pos h]
  rcases hm : noTrackMatchFn tar.data with _ | m
  · exact ⟨jsTrim tar, "UNKNOWN", rfl⟩
  · dsimp only
    by_cases hg : jsTrim (String.mk m.g2) = ""
    · exact ⟨jsTrim tar, "UNKNOWN", by rw [if_pos hg]⟩
    · exact ⟨jsTrim (String.mk m.g1), jsTrim (String.mk m.g2), by rw [if_neg hg]⟩

/-- Witness for C4: the concrete segment "NO TRK x" passes the no-tracking test and the
amended theorem yields its sentinel result. -/
theorem parse_no_tracking_witness :
    noTrackingTest "NO TRK x".data = true ∧
    (∃ ft rc, parseTrackingSegment "NO TRK x" = Except.ok (ft, rc, "NONE")) :=
  ⟨rfl, parse_no_tracking.1 "NO TRK x" rfl⟩

/-- `(a ++ b).data = a.data ++ b.data`. -/
theorem str_data_append (a b : String) : (a ++ b).data = a.data ++ b.data := by
  cases a; cases b; rfl

/-- The insufficient-fields reason has 's' at index 2, for any field count. -/
theorem insufficient_char (n : Nat) : (insufficientFieldsReason n).data[2]? = some 's' := by
  unfold insufficientFieldsReason
  rw [str_data_append, str_data_append, List.append_assoc]
  rw [List.getElem?_append_left (by decide)]
  rfl

/-- The carrier-format reason has 'v' at index 2, for any field and count. -/
theorem carrierFormat_char (c : String) (n : Nat) :
    (carrierFormatReason c n).data[2]? = some 'v' := by
  unfold carrierFormatReason
  rw [str_data_append, str_data_append, str_data_append, str_data_append]
  rw [List.append_assoc, List.append_assoc, List.append_assoc]
  rw [List.getElem?_append_left (by decide)]
  rfl

/-- When the anchor pattern matches, the only segmentation errors are the
missing-apartment-at-line-start and the missing-carrier-name reasons. -/
theorem segmentLine_anchor_error (t : String) (idx : Nat)
    (ha : findCarrierRef t.data = some idx) (r : String)
    (he : segmentLine t = Except.error r) :
    r = apartmentAnchorReason ∨ r = carrierNameReason := by
  unfold segmentLine at he
  try dsimp only at he
  rw [ha] at he
  try dsimp only at he
  split at he
  · injection he with h
    exact Or.inl h.symm
  · try dsimp only at he
    split at he
    · injection he with h
      exact Or.inr h.symm
    · simp at he

/-- The only tracking-segment errors are the separation and too-short reasons. -/
theorem parseTrackingSegment_error (tar r : String)
    (he : parseTrackingSegment tar = Except.error r) :
    r = trackingSepReason ∨ r = trackingShortReason := by
  unfold parseTrackingSegment at he
  split at he
  · split at he
    · split at he <;> simp at he
    · simp at he
  · try dsimp only at he
    split at he
    · injection he with h
      exact Or.inl h.symm
    · split at he
      · injection he with h
        exact Or.inr h.symm
      · simp at he

/-- Every line error is a segmentation error, a carrier-format error, or a
tracking-segment error. -/
theorem parseLineCore_error_classes (t r : String)
    (he : parseLineCore t = Except.error r) :
    segmentLine t = Except.error r ∨ (∃ c n, r = carrierFormatReason c n) ∨
    (∃ tar, parseTrackingSegment tar = Except.error r) := by
  unfold parseLineCore at he
  split at he
  next r0 hs =>
    injection he with h
    exact Or.inl (h ▸ hs)
  next seg hs =>
    try dsimp only at he
    split at he
    next hlen =>
      injection he with h
      exact Or.inr (Or.inl ⟨_, _, h.symm⟩)
    next hlen =>
      try dsimp only at he
      split at he
      next r0 hts =>
        injection he with h
        exact Or.inr (Or.inr ⟨_, h ▸ hts⟩)
      next => simp at he

/-- Counterexample for C6: the line "x - #1" has no tab, no run of two or more
spaces, and contains the anchor pattern, yet parse does not produce a package;
it rejects the line with the missing-apartment error (though indeed not with the
insufficient-fields error). -/
theorem anchor_segmentation_cex :
    findCarrierRef "x - #1".data = some 1 ∧
    "x - #1".data.contains '\t' = false ∧
    (splitWs2 "x - #1".data).length = 1 ∧
    (parsePackageList "x - #1").packages = [] ∧
    (parsePackageList "x - #1").errors =
      [{ lineNumber := 1, line := "x - #1", reason := apartmentAnchorReason }] :=
  ⟨rfl, rfl, rfl, rfl, rfl⟩

/-- C6 (amended): when the anchor pattern matches, the line is routed to the anchor
segmentation path, which never reports the insufficient-fields error (any failure is a
different line error, e.g. no apartment code at the line start); a well-formed line with
only single spaces is parsed into a package via the anchor. -/
theorem anchor_segmentation :
    (∀ (t : String) (idx : Nat), findCarrierRef t.data = some idx →
      ∀ (r : String), parseLineCore t = Except.error r →
        ∀ (n : Nat), ¬ r = insufficientFieldsReason n) ∧
    (parsePackageList "N01C Gustavo Cuina USPS - #3530 - 9400136208070359412525 Gustavo Cuina 3801 2/4/2026 7:04:53 PM").packages =
      [{ id := "pkg-1", apartment := "N01C", trackingLast4 := "2525", carrier := "USPS",
         recipient := "Gustavo Cuina 3801 2/4/2026 7:04:53 PM",
         fullTracking := "9400136208070359412525", importedAt := 0,
         status := PackageStatus.pending }] ∧
    (parsePackageList "N01C Gustavo Cuina USPS - #3530 - 9400136208070359412525 Gustavo Cuina 3801 2/4/2026 7:04:53 PM").errors = [] := by
  refine ⟨?_, rfl, rfl⟩
  intro t idx ha r he n hr
  have hchar : r.data[2]? = some 's' := by rw [hr]; exact insufficient_char n
  rcases parseLineCore_error_classes t r he with hs | ⟨c, m, hcf⟩ | ⟨tar, hts⟩
  · rcases segmentLine_anchor_error t idx ha r hs with h1 | h1 <;>
      rw [h1] at hchar <;> exact absurd hchar (by decide)
  · rw [hcf] at hchar
    rw [carrierFormat_char c m] at hchar
    exact absurd hchar (by decide)
  · rcases parseTrackingSegment_error tar r hts with h1 | h1 <;>
      rw [h1] at hchar <;> exact absurd hchar (by decide)

/-- Witness for C6: on the concrete anchored line "x - #1" the produced error is not the
insufficient-fields reason. -/
theorem anchor_segmentation_witness :
    findCarrierRef "x - #1".data = some 1 ∧
    parseLineCore "x - #1" = Except.error apartmentAnchorReason ∧
    ¬ apartmentAnchorReason = insufficientFieldsReason 1 :=
  ⟨rfl, rfl, anchor_segmentation.1 "x - #1" 1 rfl apartmentAnchorReason rfl 1⟩
